import Mathlib

/-!
Verification of the entity-reconciliation and review-consensus pipeline of the
`new-music-scout` repository, against its natural-language specification.

The Python sources embedded here (shallowly) are:
  * `src/music_scout/services/album_matcher.py`   (class `AlbumMatcher`)
  * `src/music_scout/services/score_parser.py`    (class `ScoreParser`)
  * `src/music_scout/services/review_aggregator.py` (class `ReviewAggregator`)

Modelling conventions:
  * Python `str` is modelled as `List Char`; `str.lower()` is modelled per
    character (ASCII case folding, which covers every string the claims use).
  * Python regular-expression substitutions/searches are modelled by dedicated
    scanning functions, one per pattern, reproducing the leftmost-match
    semantics of `re.sub` / `re.search` for the concrete patterns appearing in
    the source (each scanner is documented with its pattern).
  * Python floats are modelled as exact rationals `ℚ`; `statistics.stdev`
    (a square root) and values derived from it are modelled in `ℝ`.
  * Python `\s` is modelled as the ASCII whitespace characters
    (space, tab, newline, carriage return, vertical tab, form feed).
  * Fallible code returns `Option`; a raised-and-uncaught exception is
    modelled with `Except`.
-/

namespace MusicScout

/-- ASCII whitespace, modelling Python's regex class `\s` on ASCII text. -/
def isPySpace (c : Char) : Bool :=
  c == ' ' || c == '\t' || c == '\n' || c == '\r' || c == '\x0b' || c == '\x0c'

/-- The characters removed by `re.sub(r'[\'\".,!?:;()\[\]{}]', '', ...)` in
`normalize_string` (apostrophe, double quote, period, comma, bang, question
mark, colon, semicolon, parentheses, square brackets, curly braces). -/
def punctChars : List Char :=
  [Char.ofNat 39, Char.ofNat 34, '.', ',', '!', '?', ':', ';',
   '(', ')', '[', ']', Char.ofNat 123, Char.ofNat 125]

def isPunct (c : Char) : Bool := punctChars.contains c

/-- The dash variants unified by `re.sub(r'[–—―‐‑]', '-', ...)`. -/
def isSpecialDash (c : Char) : Bool :=
  c == '–' || c == '—' || c == '―' || c == '‐' || c == '‑'

def dashFix (c : Char) : Char := if isSpecialDash c then '-' else c

/-- ASCII lower-casing of one character, modelling `str.lower()` per char. -/
def pyLower (c : Char) : Char :=
  if 65 ≤ c.toNat ∧ c.toNat ≤ 90 then Char.ofNat (c.toNat + 32) else c

/-- ASCII upper-casing of one character, modelling `str.upper()` per char. -/
def pyUpper (c : Char) : Char :=
  if 97 ≤ c.toNat ∧ c.toNat ≤ 122 then Char.ofNat (c.toNat - 32) else c

/-- `re.sub(r'^the\s+', '', ...)`: remove a leading "the" followed by at
least one whitespace character, together with that whitespace run. -/
def stripLeadingThe (l : List Char) : List Char :=
  match l with
  | c1 :: c2 :: c3 :: c4 :: rest =>
    if c1 = 't' ∧ c2 = 'h' ∧ c3 = 'e' ∧ isPySpace c4 then rest.dropWhile isPySpace
    else l
  | _ => l

/-- One attempt, at the current position, to match `\s*OP.*?CL\s*` (the span
patterns `\s*\(.*?\)\s*` and `\s*\[.*?\]\s*` of `normalize_string`; `.` does
not cross a newline, `.*?` is lazy so the span ends at the first closer).
Returns the rest of the input after the match, when the pattern matches
here. -/
def matchSpanAt (op cl : Char) (l : List Char) : Option (List Char) :=
  match l.dropWhile isPySpace with
  | [] => none
  | c :: r2 =>
    if c = op then
      match r2.drop ((r2.takeWhile (fun d => ¬(d = cl ∨ d = '\n'))).length) with
      | d :: r4 => if d = cl then some (r4.dropWhile isPySpace) else none
      | [] => none
    else none

/-- `re.sub` of a span pattern by a single space: scan left to right, replace
each non-overlapping match by `' '` and continue after it.  The fuel is the
input length, enough because every match consumes at least two characters. -/
def subSpansAux (op cl : Char) : Nat → List Char → List Char
  | 0, l => l
  | _ + 1, [] => []
  | f + 1, c :: cs =>
    match matchSpanAt op cl (c :: cs) with
    | some rest => ' ' :: subSpansAux op cl f rest
    | none => c :: subSpansAux op cl f cs

def subSpans (op cl : Char) (l : List Char) : List Char :=
  subSpansAux op cl l.length l

/-- State machine for `re.sub(r'\s+', ' ', ...)`: the flag records whether we
are inside a whitespace run whose single replacement space was already
emitted. -/
def collapseWsAux : Bool → List Char → List Char
  | _, [] => []
  | inRun, c :: cs =>
    if isPySpace c then
      if inRun then collapseWsAux true cs else ' ' :: collapseWsAux true cs
    else c :: collapseWsAux false cs

/-- `re.sub(r'\s+', ' ', ...)`: collapse every whitespace run to one space. -/
def collapseWs (l : List Char) : List Char := collapseWsAux false l

/-- Remove trailing whitespace (the right half of `str.strip()`). -/
def dropTrailWs : List Char → List Char
  | [] => []
  | c :: cs =>
    match dropTrailWs cs with
    | [] => if isPySpace c then [] else [c]
    | r => c :: r

/-- `str.strip()` on both ends. -/
def pyStrip (l : List Char) : List Char := dropTrailWs (l.dropWhile isPySpace)

/-- `AlbumMatcher.normalize_string`, translated step by step:
empty guard; lowercase; strip punctuation; unify dashes; strip leading
"the "; substitute parenthesized spans; substitute bracketed spans; collapse
whitespace and strip. -/
def normalize_string (t : List Char) : List Char :=
  if t = [] then []
  else
    pyStrip (collapseWs (subSpans '[' ']' (subSpans '(' ')'
      (stripLeadingThe (((t.map pyLower).filter (fun c => !(isPunct c))).map dashFix)))))

/-- Proof-side view of whitespace-collapsed stripped strings: the maximal
whitespace-free nonempty chunks of the input, in order. -/
def blocks (l : List Char) : List (List Char) :=
  match h : l.dropWhile isPySpace with
  | [] => []
  | c :: cs =>
    (c :: cs.takeWhile (fun d => !(isPySpace d))) ::
      blocks (cs.dropWhile (fun d => !(isPySpace d)))
termination_by l.length
decreasing_by
  have h1 : (l.dropWhile isPySpace).length ≤ l.length :=
    (List.dropWhile_sublist (l := l) (p := isPySpace)).length_le
  have h2 : (cs.dropWhile (fun d => !(isPySpace d))).length ≤ cs.length :=
    (List.dropWhile_sublist (l := cs) (p := fun d => !(isPySpace d))).length_le
  have h3 : cs.length + 1 ≤ l.length := by rw [h] at h1; simpa using h1
  omega

/-- Proof-side inverse of `blocks`: interleave chunks with single spaces. -/
def joinW : List (List Char) → List Char
  | [] => []
  | [b] => b
  | b :: bs => b ++ ' ' :: joinW bs

/-- Proof-side name for the lowercase/punctuation/dash/leading-article part of
`normalize_string` (everything before the span substitutions). -/
def normCore (x : List Char) : List Char :=
  stripLeadingThe (((x.map pyLower).filter (fun c => !(isPunct c))).map dashFix)

/-! ## Entity model (`models/` and the persistence visible to the services)

The SQL store is modelled as in-memory lists with explicit id counters.
Iteration order of queries models insertion order.  Timestamps are modelled
at day granularity: a `PyDate` carries the day number (as used by date
subtraction and ordering) and the calendar year (as used by `.year`). -/

structure PyDate where
  days : Int
  year : Int
deriving DecidableEq

def pyDateLt (a b : PyDate) : Bool :=
  a.days < b.days || (a.days == b.days && a.year < b.year)

structure ArtistR where
  id : Nat
  name : List Char
  normalized_name : List Char
deriving DecidableEq

structure AlbumR where
  id : Nat
  title : List Char
  normalized_title : List Char
  artist_id : Nat
  release_year : Option Int
  release_date : Option Int
deriving DecidableEq

inductive CType where
  | review
  | other
deriving DecidableEq

structure ItemR where
  id : Nat
  source_id : Nat
  content_type : CType
  album : List Char
  artists : List (List Char)
  published_date : Option PyDate
  review_score : Option ℚ
deriving DecidableEq

structure SourceR where
  id : Nat
  weight : ℚ
deriving DecidableEq

structure ScoreDist where
  b03 : Nat
  b35 : Nat
  b57 : Nat
  b78 : Nat
  b89 : Nat
  b910 : Nat
deriving DecidableEq

/-- The derived fields of an `AlbumReviewAggregate` row (everything the
aggregator recomputes on each run). -/
structure AggFields where
  review_count : Nat
  average_score : ℚ
  weighted_average : ℚ
  median_score : ℚ
  score_stddev : ℝ
  consensus_strength : ℝ
  controversy_score : ℝ
  source_ids : List Nat
  review_item_ids : List Nat
  score_distribution : ScoreDist
  first_review_date : Option PyDate
  latest_review_date : Option PyDate
  days_since_release : Option Int

structure AggregateR where
  id : Nat
  album_id : Nat
  fields : AggFields
  updated_at : Int

structure DB where
  artists : List ArtistR
  albums : List AlbumR
  items : List ItemR
  sources : List SourceR
  aggregates : List AggregateR
  nextArtistId : Nat
  nextAlbumId : Nat
  nextAggId : Nat

/-! ## `AlbumMatcher` (album_matcher.py)

`difflib.SequenceMatcher.ratio()` is standard-library code outside this
repository; it is modelled as an explicit parameter `ratio` of the matching
functions, wrapped by `similarity_score` exactly as the source wraps it. -/

def exact_match_threshold : ℚ := 0.95
def strong_match_threshold : ℚ := 0.85
def weak_match_threshold : ℚ := 0.70

/-- `AlbumMatcher.similarity_score`: 0 for an empty side, 1 for equality,
otherwise the sequence-matcher ratio. -/
def similarity_score (ratio : List Char → List Char → ℚ) (s1 s2 : List Char) : ℚ :=
  if s1 = [] ∨ s2 = [] then 0
  else if s1 = s2 then 1
  else ratio s1 s2

/-- The best-candidate fold shared by the two fuzzy scans: update the running
best when score > best_score and score ≥ strong threshold. -/
def bestCandidate {α : Type} (sc : α → ℚ) (cands : List α) : Option α :=
  (cands.foldl
    (fun st al => if sc al > st.2 ∧ sc al ≥ strong_match_threshold then (some al, sc al) else st)
    ((none : Option α), (0 : ℚ))).1

/-- `AlbumMatcher.match_artist`.  Empty-name guard on the raw input, exact
lookup by normalized name, fuzzy scan, then optional creation. -/
def match_artist (ratio : List Char → List Char → ℚ) (db : DB)
    (artist_name : List Char) (create_if_missing : Bool) : Option ArtistR × DB :=
  if artist_name = [] then (none, db)
  else
    match db.artists.find? (fun a => a.normalized_name = normalize_string artist_name) with
    | some a => (some a, db)
    | none =>
      match bestCandidate
          (fun a => similarity_score ratio (normalize_string artist_name) a.normalized_name)
          db.artists with
      | some a => (some a, db)
      | none =>
        if create_if_missing then
          (some ⟨db.nextArtistId, artist_name, normalize_string artist_name⟩,
            { db with
              artists := db.artists ++ [⟨db.nextArtistId, artist_name, normalize_string artist_name⟩],
              nextArtistId := db.nextArtistId + 1 })
        else (none, db)

/-- Python truthiness of an optional integer (`None` and `0` are falsy). -/
def pyTruthyInt : Option Int → Bool
  | none => false
  | some n => n != 0

/-- The per-candidate score of the fuzzy album scan: similarity ratio plus a
flat 0.1 bonus when a (truthy) release year is supplied and the candidate has
that same (truthy) release year. -/
def album_score (ratio : List Char → List Char → ℚ) (nt : List Char)
    (release_year : Option Int) (al : AlbumR) : ℚ :=
  similarity_score ratio nt al.normalized_title +
    (if pyTruthyInt release_year ∧ pyTruthyInt al.release_year ∧ al.release_year = release_year
      then 1/10 else 0)

/-- `AlbumMatcher.match_album`. -/
def match_album (ratio : List Char → List Char → ℚ) (db : DB)
    (album_title artist_name : List Char) (create_if_missing : Bool)
    (release_year : Option Int) : Option AlbumR × DB :=
  if album_title = [] ∨ artist_name = [] then (none, db)
  else
    match (match_artist ratio db artist_name create_if_missing).1,
        (match_artist ratio db artist_name create_if_missing).2 with
    | none, db2 => (none, db2)
    | some artist, db2 =>
      match db2.albums.find?
          (fun al => al.artist_id = artist.id ∧ al.normalized_title = normalize_string album_title) with
      | some al => (some al, db2)
      | none =>
        match bestCandidate (album_score ratio (normalize_string album_title) release_year)
            (db2.albums.filter (fun al => al.artist_id = artist.id)) with
        | some al => (some al, db2)
        | none =>
          if create_if_missing then
            (some ⟨db2.nextAlbumId, album_title, normalize_string album_title,
                artist.id, release_year, none⟩,
              { db2 with
                albums := db2.albums ++ [⟨db2.nextAlbumId, album_title,
                  normalize_string album_title, artist.id, release_year, none⟩],
                nextAlbumId := db2.nextAlbumId + 1 })
          else (none, db2)

/-- `AlbumMatcher.match_music_item_to_album`: requires a truthy album mention
and artists list, uses the first artist and the publication year. -/
def match_music_item_to_album (ratio : List Char → List Char → ℚ) (db : DB)
    (item : ItemR) (create_if_missing : Bool) : Option AlbumR × DB :=
  if item.album = [] ∨ item.artists = [] then (none, db)
  else
    match item.artists with
    | [] => (none, db)
    | first :: _ =>
      if first = [] then (none, db)
      else
        match_album ratio db item.album first create_if_missing
          (item.published_date.map (fun d => d.year))

/-- Proof-side pure view of `match_artist` with create_if_missing=False
(that call path never mutates the store; see `match_artist_false`). -/
def match_artist_ro (ratio : List Char → List Char → ℚ) (artists : List ArtistR)
    (nm : List Char) : Option ArtistR :=
  if nm = [] then none
  else
    match artists.find? (fun a => a.normalized_name = normalize_string nm) with
    | some a => some a
    | none =>
      bestCandidate (fun a => similarity_score ratio (normalize_string nm) a.normalized_name)
        artists

/-- Proof-side pure view of `match_album` with create_if_missing=False. -/
def match_album_ro (ratio : List Char → List Char → ℚ) (artists : List ArtistR)
    (albums : List AlbumR) (album_title artist_name : List Char)
    (release_year : Option Int) : Option AlbumR :=
  if album_title = [] ∨ artist_name = [] then none
  else
    match match_artist_ro ratio artists artist_name with
    | none => none
    | some artist =>
      match albums.find?
          (fun al => al.artist_id = artist.id ∧ al.normalized_title = normalize_string album_title) with
      | some al => some al
      | none =>
        bestCandidate (album_score ratio (normalize_string album_title) release_year)
          (albums.filter (fun al => al.artist_id = artist.id))

/-- Proof-side pure view of `match_music_item_to_album` with
create_if_missing=False. -/
def match_item_ro (ratio : List Char → List Char → ℚ) (artists : List ArtistR)
    (albums : List AlbumR) (item : ItemR) : Option AlbumR :=
  if item.album = [] ∨ item.artists = [] then none
  else
    match item.artists with
    | [] => none
    | first :: _ =>
      if first = [] then none
      else
        match_album_ro ratio artists albums item.album first
          (item.published_date.map (fun d => d.year))

/-- A trivial sequence-matcher stand-in used to instantiate closed statements
(the traces they evaluate never reach the fuzzy ratio). -/
def zeroRatio : List Char → List Char → ℚ := fun _ _ => 0

def emptyDB : DB := ⟨[], [], [], [], [], 0, 0, 0⟩

/-- A concrete album row used to instantiate closed statements. -/
def sampleAlbum : AlbumR :=
  ⟨1, "Still Life".toList, "still life".toList, 1, some 1999, none⟩

/-- A small concrete store (one artist, one album, one scored review from one
source) used to instantiate closed statements about aggregation. -/
def witnessDB : DB :=
  ⟨[⟨1, "Tool".toList, "tool".toList⟩],
   [⟨1, "Fear Inoculum".toList, "fear inoculum".toList, 1, some 2019, some 100⟩],
   [⟨1, 1, CType.review, "Fear Inoculum".toList, ["Tool".toList], some ⟨102, 2019⟩, some 9⟩],
   [⟨1, 1⟩],
   [], 2, 2, 1⟩

/-! ## `ReviewAggregator` statistics (review_aggregator.py)

Scores are exact rationals; `statistics.stdev` and the metrics derived from
it live in `ℝ` because of the square root.  Python's `round(x, 3)` rounds
half to even. -/

def mean (l : List ℚ) : ℚ := l.sum / l.length

/-- Sample variance (denominator n - 1), the square of `statistics.stdev`. -/
def sampleVarQ (l : List ℚ) : ℚ :=
  ((l.map (fun x => (x - mean l) ^ 2)).sum) / ((l.length : ℚ) - 1)

noncomputable def stdevR (l : List ℚ) : ℝ := Real.sqrt ((sampleVarQ l : ℚ) : ℝ)

open Classical in
/-- Round to the nearest integer, ties to even (Python `round`). -/
noncomputable def roundHalfEven (y : ℝ) : ℤ :=
  if Int.fract y = 1/2 then (if Even ⌊y⌋ then ⌊y⌋ else ⌊y⌋ + 1) else round y

/-- Python `round(x, 3)`. -/
noncomputable def pyRound3 (x : ℝ) : ℝ := (roundHalfEven (x * 1000) : ℝ) / 1000

/-- `ReviewAggregator._calculate_consensus_strength`: 1.0 for at most one
score; 1.0 when the mean is zero; otherwise
`round(max(0, 1 - stdev/mean), 3)`. -/
noncomputable def calculate_consensus_strength (scores : List ℚ) : ℝ :=
  if scores.length ≤ 1 then 1
  else if mean scores = 0 then 1
  else pyRound3 (max 0 (1 - stdevR scores / ((mean scores : ℚ) : ℝ)))

/-- One iteration of `_calculate_score_distribution`'s loop: the if/elif
chain incrementing exactly one bucket. -/
def bucketStep (d : ScoreDist) (s : ℚ) : ScoreDist :=
  if s < 3 then { d with b03 := d.b03 + 1 }
  else if s < 5 then { d with b35 := d.b35 + 1 }
  else if s < 7 then { d with b57 := d.b57 + 1 }
  else if s < 8 then { d with b78 := d.b78 + 1 }
  else if s < 9 then { d with b89 := d.b89 + 1 }
  else { d with b910 := d.b910 + 1 }

/-- `ReviewAggregator._calculate_score_distribution`: the six-bucket
histogram filled by the source's if/elif chain. -/
def calculate_score_distribution (scores : List ℚ) : ScoreDist :=
  scores.foldl bucketStep ⟨0, 0, 0, 0, 0, 0⟩

def distSum (d : ScoreDist) : Nat :=
  d.b03 + d.b35 + d.b57 + d.b78 + d.b89 + d.b910

/-- The six half-open ranges named by the specification,
[0,3) [3,5) [5,7) [7,8) [8,9) [9,10], the last one closed at 10. -/
def inBucket (i : Fin 6) (s : ℚ) : Prop :=
  if i = 0 then 0 ≤ s ∧ s < 3
  else if i = 1 then 3 ≤ s ∧ s < 5
  else if i = 2 then 5 ≤ s ∧ s < 7
  else if i = 3 then 7 ≤ s ∧ s < 8
  else if i = 4 then 8 ≤ s ∧ s < 9
  else 9 ≤ s ∧ s ≤ 10

/-- The guarded standard deviation stored in the aggregate
(`statistics.stdev(scores) if len(scores) > 1 else 0.0`). -/
noncomputable def score_stddev_code (scores : List ℚ) : ℝ :=
  if 1 < scores.length then stdevR scores else 0

/-- The consensus-strength rule as the specification words it: exactly one
score means 1.0; mean zero means 1.0; otherwise
round(max(0, 1 - stddev/mean), 3) with the sample standard deviation. -/
noncomputable def consensus_strength_spec (scores : List ℚ) : ℝ :=
  if scores.length = 1 then 1
  else if mean scores = 0 then 1
  else pyRound3 (max 0 (1 - stdevR scores / ((mean scores : ℚ) : ℝ)))

/-- The bucket the if/elif chain assigns to one score. -/
def bucketOf (s : ℚ) : Fin 6 :=
  if s < 3 then 0 else if s < 5 then 1 else if s < 7 then 2
  else if s < 8 then 3 else if s < 9 then 4 else 5

/-- `statistics.median`: middle of the sorted list, or the average of the two
middles (never called on an empty list by the source; 0 as junk default). -/
def pyMedian (l : List ℚ) : ℚ :=
  let s := l.mergeSort (fun a b => decide (a ≤ b))
  let n := s.length
  if n % 2 = 1 then s.getD (n / 2) 0
  else (s.getD (n / 2 - 1) 0 + s.getD (n / 2) 0) / 2

/-- Python `min` over datetimes (first minimum on ties). -/
def pyMinDates : List PyDate → Option PyDate
  | [] => none
  | x :: t => some (t.foldl (fun acc y => if pyDateLt y acc then y else acc) x)

/-- Python `max` over datetimes (first maximum on ties). -/
def pyMaxDates : List PyDate → Option PyDate
  | [] => none
  | x :: t => some (t.foldl (fun acc y => if pyDateLt acc y then y else acc) x)

/-- `_get_source_weights` followed by `.get(source_id, 1.0)`: a source's
stored weight, defaulting to 1.0 for unknown sources. -/
def weightOf (sources : List SourceR) (sid : Nat) : ℚ :=
  match sources.find? (fun s => s.id = sid) with
  | some s => s.weight
  | none => 1

/-- The reviews matched to `aid`: all REVIEW-typed items that
`match_music_item_to_album` (with create_if_missing=False, which never
mutates the store — see `match_item_ro`) resolves to this album. -/
def matchedReviews (ratio : List Char → List Char → ℚ) (db : DB) (aid : Nat) :
    List ItemR :=
  (db.items.filter (fun it => it.content_type = CType.review)).filter
    (fun it =>
      match (match_music_item_to_album ratio db it false).1 with
      | some al => al.id = aid
      | none => false)

/-- `scored_reviews`: the matched reviews carrying a numeric score. -/
def scoredSubset (reviews : List ItemR) : List ItemR :=
  reviews.filter (fun r => r.review_score.isSome)

/-- `scores`: the numeric scores of the scored reviews. -/
def scoresOf (reviews : List ItemR) : List ℚ :=
  (scoredSubset reviews).filterMap (fun r => r.review_score)

/-- The pure computation of every derived field of an aggregate, from the
source weights, the album row and the matched reviews (lines 64-110 of
review_aggregator.py). -/
noncomputable def computeAgg (sources : List SourceR) (album : AlbumR)
    (reviews : List ItemR) : AggFields :=
  ⟨reviews.length,
    mean (scoresOf reviews),
    ((scoredSubset reviews).map
        (fun r => (r.review_score.getD 0) * weightOf sources r.source_id)).sum
      / ((scoredSubset reviews).map (fun r => weightOf sources r.source_id)).sum,
    pyMedian (scoresOf reviews),
    score_stddev_code (scoresOf reviews),
    calculate_consensus_strength (scoresOf reviews),
    min (score_stddev_code (scoresOf reviews) / 10) 1,
    ((reviews.map (fun r => r.source_id)).dedup),
    reviews.map (fun r => r.id),
    calculate_score_distribution (scoresOf reviews),
    pyMinDates (reviews.filterMap (fun r => r.published_date)),
    pyMaxDates (reviews.filterMap (fun r => r.published_date)),
    match album.release_date, pyMinDates (reviews.filterMap (fun r => r.published_date)) with
    | some rd, some f => some (f.days - rd)
    | _, _ => none⟩

/-- In-place update of the row returned by `.first()` on the aggregate
query: replace the first list entry satisfying the predicate. -/
def replaceFirstAgg (p : AggregateR → Bool) (new : AggregateR) :
    List AggregateR → List AggregateR
  | [] => []
  | a :: t => if p a then new :: t else a :: replaceFirstAgg p new t

/-- `ReviewAggregator.aggregate_reviews_for_album`: look up album and artist,
re-match all reviews, bail out on zero matched or zero scored reviews,
compute the derived fields and upsert (update the existing aggregate row in
place, else insert a fresh one).  `now` stands for `datetime.utcnow()`. -/
noncomputable def aggregate_reviews_for_album (ratio : List Char → List Char → ℚ)
    (db : DB) (aid : Nat) (now : Int) : Option AggregateR × DB :=
  match db.albums.find? (fun al => al.id = aid) with
  | none => (none, db)
  | some album =>
    match db.artists.find? (fun ar => ar.id = album.artist_id) with
    | none => (none, db)
    | some _ =>
      if matchedReviews ratio db aid = [] then (none, db)
      else
        if (matchedReviews ratio db aid).filter (fun r => r.review_score.isSome) = [] then
          (none, db)
        else
          match db.aggregates.find? (fun ag => ag.album_id = aid) with
          | some ag =>
            (some ⟨ag.id, ag.album_id, computeAgg db.sources album (matchedReviews ratio db aid), now⟩,
              { db with
                aggregates := replaceFirstAgg (fun a => a.album_id = aid)
                  ⟨ag.id, ag.album_id, computeAgg db.sources album (matchedReviews ratio db aid), now⟩
                  db.aggregates })
          | none =>
            (some ⟨db.nextAggId, aid, computeAgg db.sources album (matchedReviews ratio db aid), now⟩,
              { db with
                aggregates := db.aggregates ++
                  [⟨db.nextAggId, aid, computeAgg db.sources album (matchedReviews ratio db aid), now⟩],
                nextAggId := db.nextAggId + 1 })

/- ------------------------------------------------------------------ -/
/- ScoreParser (services/score_parser.py).                            -/
/- ------------------------------------------------------------------ -/

/-- `re` whitespace class `\s` (ASCII part, the only one the feeds can
produce): same set as `str.strip()` whitespace. -/
def isReSpace (c : Char) : Bool := isPySpace c

/-- `re` digit class `\d` (ASCII digits, code points 48-57). -/
def isDigitCh (c : Char) : Bool :=
  decide (48 ≤ c.toNat) && decide (c.toNat ≤ 57)

/-- `re` word class `\w` (ASCII letters, digits and underscore), used for
the `\b` word-boundary tests. -/
def isWordCh (c : Char) : Bool :=
  isDigitCh c || decide (97 ≤ c.toNat) && decide (c.toNat ≤ 122)
    || decide (65 ≤ c.toNat) && decide (c.toNat ≤ 90) || c == '_'

/-- Greedy character-class run: the longest prefix satisfying `p`, with the
rest (models `\d+`, `\d*`, `\s*` where no backtracking can matter). -/
def spanCh (p : Char → Bool) : List Char → List Char × List Char
  | [] => ([], [])
  | c :: t =>
    if p c then
      ((spanCh p t).1.cons c, (spanCh p t).2)
    else ([], c :: t)

/-- Case-insensitive one-character literal match (`re.IGNORECASE`): the
pattern literal `l` is given lower-case. -/
def licEq (c l : Char) : Bool := pyLower c == l

/-- Consume the literal `lit` case-insensitively; return the rest. -/
def eatLic : List Char → List Char → Option (List Char)
  | [], s => some s
  | _ :: _, [] => none
  | l :: lt, c :: ct => if licEq c l then eatLic lt ct else none

/-- Consume the literal `lit` case-sensitively (patterns compiled without
`re.IGNORECASE`, e.g. the Prog Report list); return the rest. -/
def eatLit : List Char → List Char → Option (List Char)
  | [], s => some s
  | _ :: _, [] => none
  | l :: lt, c :: ct => if c = l then eatLit lt ct else none

/-- Ordered alternation of plain literals, as in `(?:grade|rating|score)`:
first alternative that matches wins; returns (consumed length, rest).  (The
alternatives used in the source never share a first character, so no
cross-alternative backtracking can arise.) -/
def eatAlts : List (List Char) → List Char → Option (Nat × List Char)
  | [], _ => none
  | a :: rest, s =>
    match eatLic a s with
    | some r => some (a.length, r)
    | none => eatAlts rest s

/-- Ordered word alternation followed by `\b`, as in
`(excellent|great|good|average|poor|terrible)\b`: a candidate whose
boundary test fails backtracks to the later alternatives.  Returns
(consumed length, matched word). -/
def eatWordAlt : List (List Char) → List Char → Option (Nat × List Char)
  | [], _ => none
  | w :: rest, s =>
    match eatLic w s with
    | some r =>
      match r with
      | x :: _ =>
        if isWordCh x then eatWordAlt rest s else some (w.length, s.take w.length)
      | [] => some (w.length, s.take w.length)
    | none => eatWordAlt rest s

/-- `re.search`: try the anchored matcher at every position left to right
(including the final empty position) and keep the first hit, returning the
suffix where the match starts together with the matcher's result. -/
def reSearch {β : Type} (m : List Char → Option β) : List Char → Option (List Char × β)
  | [] =>
    match m [] with
    | some r => some ([], r)
    | none => none
  | c :: t =>
    match m (c :: t) with
    | some r => some (c :: t, r)
    | none => reSearch m t

/-- Lazy gap `.*?` before a sub-matcher: try the shortest skip first, one
character at a time; `.` does not cross a newline.  Returns total consumed
length (skip plus inner match) and the inner result. -/
def lazyScan {β : Type} (m : List Char → Option (Nat × β)) : List Char → Option (Nat × β)
  | [] => m []
  | c :: t =>
    match m (c :: t) with
    | some r => some r
    | none =>
      if c = '\n' then none
      else
        match lazyScan m t with
        | some (n, g) => some (n + 1, g)
        | none => none

/-- Value of a digit run as a natural number. -/
def digitsVal (l : List Char) : Nat :=
  l.foldl (fun a c => a * 10 + (c.toNat - 48)) 0

/-- `float(raw)` on the digit/dot shapes the capture groups can produce
(`\d+`, `\d+\.?\d*`, `\d+\.\d+`): digits, at most one dot, at least one
digit; anything else is a `ValueError` (`none`). -/
def parsePyFloat (l : List Char) : Option ℚ :=
  match (spanCh isDigitCh l).2 with
  | [] => if (spanCh isDigitCh l).1 = [] then none else some (mkRat (digitsVal (spanCh isDigitCh l).1) 1)
  | '.' :: r2 =>
    if (spanCh isDigitCh r2).2 = [] then
      if (spanCh isDigitCh l).1 = [] ∧ (spanCh isDigitCh r2).1 = [] then none
      else
        some (mkRat (digitsVal ((spanCh isDigitCh l).1 ++ (spanCh isDigitCh r2).1))
          (10 ^ (spanCh isDigitCh r2).1.length))
    else none
  | _ => none

/-- `str.split('/')`. -/
def splitSlash : List Char → List (List Char)
  | [] => [[]]
  | '/' :: t => [] :: splitSlash t
  | c :: t =>
    match splitSlash t with
    | h :: r => (c :: h) :: r
    | [] => [[c]]

/-- Substring containment, modelling Python `needle in hay`. -/
def listPrefixAt : List Char → List Char → Bool
  | [], _ => true
  | _ :: _, [] => false
  | a :: t, b :: u => a == b && listPrefixAt t u

/-- Substring containment, modelling Python `needle in hay` (scan all start
positions). -/
def strContains (needle : List Char) : List Char → Bool
  | [] => needle.isEmpty
  | c :: t => listPrefixAt needle (c :: t) || strContains needle t

/-- `ParsedScore` dataclass.  `raw_score` is `match.group(0)`, scores and
confidence are ℚ (Python floats), `sub_scores` keeps the categories in
pattern order. -/
structure ParsedScore where
  raw_score : List Char
  normalized_score : ℚ
  confidence : ℚ
  format_type : List Char
  sub_scores : Option (List (List Char × ℚ))

/-- The `grade_map` of `_normalize_score` (keys upper-cased before lookup). -/
def gradeMap : List (List Char × ℚ) :=
  [("A+".toList, 10), ("A".toList, 9), ("A-".toList, mkRat 17 2),
   ("B+".toList, 8), ("B".toList, 7), ("B-".toList, mkRat 13 2),
   ("C+".toList, 6), ("C".toList, 5), ("C-".toList, mkRat 9 2),
   ("D+".toList, 4), ("D".toList, 3), ("D-".toList, mkRat 5 2),
   ("F".toList, 1)]

/-- The `text_map` of `_normalize_score` (keys lower-cased before lookup). -/
def textMap : List (List Char × ℚ) :=
  [("excellent".toList, 9), ("great".toList, 8), ("good".toList, 7),
   ("average".toList, 5), ("poor".toList, 3), ("terrible".toList, 1)]

/-- `ScoreParser._normalize_score(raw_value, format_type)`.  The `try`
block's `ValueError`/`ZeroDivisionError` exits (bad float, wrong number of
`/`-parts, zero denominator) are `none`.  Note the `'/' in raw_value`
fraction branch: it only runs when the capture group itself contains a
slash. -/
def normalize_score (raw : List Char) (fmt : List Char) : Option ℚ :=
  if fmt = "decimal".toList then parsePyFloat raw
  else if fmt = "fraction".toList then
    if raw.contains '/' then
      match splitSlash raw with
      | [num, denom] =>
        match parsePyFloat num, parsePyFloat denom with
        | some n, some d => if d = 0 then none else some (min (n / d * 10) 10)
        | _, _ => none
      | _ => none
    else parsePyFloat raw
  else if fmt = "stars".toList then
    some ((raw.count '★' : ℚ) / 5 * 10)
  else if fmt = "letter".toList then gradeMap.lookup (raw.map pyUpper)
  else if fmt = "text".toList then textMap.lookup (raw.map pyLower)
  else if fmt = "percentage".toList then
    (parsePyFloat raw).map (fun v => v / 100 * 10)
  else none

/-- Universal pattern 1 anchored at a position: `([1-5])/5\s*stars?`;
returns (match length, group 1). -/
def u1At : List Char → Option (Nat × List Char)
  | c :: d :: e :: s3 =>
    if decide (49 ≤ c.toNat) && decide (c.toNat ≤ 53) && (d == '/') && (e == '5') then
      match eatLic "star".toList (spanCh isReSpace s3).2 with
      | some r4 =>
        match r4 with
        | x :: _ =>
          if licEq x 's' then some (3 + (spanCh isReSpace s3).1.length + 5, [c])
          else some (3 + (spanCh isReSpace s3).1.length + 4, [c])
        | [] => some (3 + (spanCh isReSpace s3).1.length + 4, [c])
      | none => none
    else none
  | _ => none

/-- Universal pattern 2 anchored at a position: `★{1,5}` (greedy, at most
five glyphs).  The pattern has no capture group, so a hit makes
`match.group(1)` raise `IndexError`; only the match length is returned. -/
def u2At : List Char → Option Nat
  | '★' :: t => some (min ((spanCh (fun c => c == '★') t).1.length + 1) 5)
  | _ => none

/-- Universal pattern 3 anchored at a position:
`(?:grade|rating|score):\s*([A-F][+-]?)\b` under `re.IGNORECASE`.  The
greedy optional sign backtracks out again when the boundary test after it
fails. -/
def u3At (s : List Char) : Option (Nat × List Char)  :=
  match eatAlts ["grade".toList, "rating".toList, "score".toList] s with
  | some (k, r1) =>
    match r1 with
    | ':' :: r2 =>
      match (spanCh isReSpace r2).2 with
      | c :: r3 =>
        if decide (97 ≤ (pyLower c).toNat) && decide ((pyLower c).toNat ≤ 102) then
          match r3 with
          | p :: r4 =>
            if p == '+' || p == '-' then
              match r4 with
              | x :: _ =>
                if isWordCh x then some (k + 1 + (spanCh isReSpace r2).1.length + 2, [c, p])
                else some (k + 1 + (spanCh isReSpace r2).1.length + 1, [c])
              | [] => some (k + 1 + (spanCh isReSpace r2).1.length + 1, [c])
            else
              if isWordCh p then none
              else some (k + 1 + (spanCh isReSpace r2).1.length + 1, [c])
          | [] => some (k + 1 + (spanCh isReSpace r2).1.length + 1, [c])
        else none
      | [] => none
    | _ => none
  | none => none

/-- Universal pattern 4 anchored at a position:
`(?:rating|score):\s*(excellent|great|good|average|poor|terrible)\b`. -/
def u4At (s : List Char) : Option (Nat × List Char) :=
  match eatAlts ["rating".toList, "score".toList] s with
  | some (k, r1) =>
    match r1 with
    | ':' :: r2 =>
      match eatWordAlt ["excellent".toList, "great".toList, "good".toList,
          "average".toList, "poor".toList, "terrible".toList] (spanCh isReSpace r2).2 with
      | some (n, w) => some (k + 1 + (spanCh isReSpace r2).1.length + n, w)
      | none => none
    | _ => none
  | none => none

/-- Universal pattern 5 anchored at a position:
`(?:score|rating):\s*(\d+)%`. -/
def u5At (s : List Char) : Option (Nat × List Char) :=
  match eatAlts ["score".toList, "rating".toList] s with
  | some (k, r1) =>
    match r1 with
    | ':' :: r2 =>
      match (spanCh isDigitCh (spanCh isReSpace r2).2).1,
            (spanCh isDigitCh (spanCh isReSpace r2).2).2 with
      | [], _ => none
      | d :: ds, '%' :: _ =>
        some (k + 1 + (spanCh isReSpace r2).1.length + (d :: ds).length + 1, d :: ds)
      | _ :: _, _ => none
    | _ => none
  | none => none

/-- Prog Report pattern 1 anchored at a position: `(\d+)/10` (the slash is
outside the group, so group 1 is the bare numerator). -/
def p1At (s : List Char) : Option (Nat × List Char) :=
  match (spanCh isDigitCh s).1, (spanCh isDigitCh s).2 with
  | [], _ => none
  | d :: ds, '/' :: '1' :: '0' :: _ => some ((d :: ds).length + 3, d :: ds)
  | _ :: _, _ => none

/-- Prog Report pattern 2 anchored at a position: `(\d+)/5`. -/
def p2At (s : List Char) : Option (Nat × List Char) :=
  match (spanCh isDigitCh s).1, (spanCh isDigitCh s).2 with
  | [], _ => none
  | d :: ds, '/' :: '5' :: _ => some ((d :: ds).length + 2, d :: ds)
  | _ :: _, _ => none

/-- Number shape `\d+\.?\d*` (Prog Report pattern 3's group). -/
def decNumAt (s : List Char) : Option (Nat × List Char) :=
  match (spanCh isDigitCh s).1, (spanCh isDigitCh s).2 with
  | [], _ => none
  | d :: ds, '.' :: r2 =>
    some ((d :: ds).length + 1 + (spanCh isDigitCh r2).1.length,
      (d :: ds) ++ '.' :: (spanCh isDigitCh r2).1)
  | d :: ds, _ => some ((d :: ds).length, d :: ds)

/-- Prog Report pattern 3 anchored at a position: `Rating:\s*(\d+\.?\d*)`
— compiled without `re.IGNORECASE`, so the capital `R` can never match the
lower-cased content `parse_score` passes in. -/
def p3At (s : List Char) : Option (Nat × List Char) :=
  match eatLit "Rating:".toList s with
  | some r1 =>
    match decNumAt (spanCh isReSpace r1).2 with
    | some (n, g) => some (7 + (spanCh isReSpace r1).1.length + n, g)
    | none => none
  | none => none

/-- Number shape `(\d+\.\d+)` (both fraction digit runs mandatory). -/
def fltNumAt (s : List Char) : Option (Nat × List Char) :=
  match (spanCh isDigitCh s).1, (spanCh isDigitCh s).2 with
  | [], _ => none
  | d :: ds, '.' :: r2 =>
    match (spanCh isDigitCh r2).1 with
    | [] => none
    | e :: es =>
      some ((d :: ds).length + 1 + (e :: es).length, (d :: ds) ++ '.' :: (e :: es))
  | _ :: _, _ => none

/-- Tail `(\d+\.\d+)\s*out\s*of\s*10` (also Sonic pattern 2 in full). -/
def outOf10At (s : List Char) : Option (Nat × List Char) :=
  match fltNumAt s with
  | some (n, g) =>
    match eatLic "out".toList (spanCh isReSpace (s.drop n)).2 with
    | some r2 =>
      match eatLic "of".toList (spanCh isReSpace r2).2 with
      | some r3 =>
        match (spanCh isReSpace r3).2 with
        | '1' :: '0' :: _ =>
          some (n + (spanCh isReSpace (s.drop n)).1.length + 3
            + (spanCh isReSpace r2).1.length + 2 + (spanCh isReSpace r3).1.length + 2, g)
        | _ => none
      | none => none
    | none => none
  | none => none

/-- Sonic pattern 1 anchored at a position:
`(?:overall\s*score|score).*?(\d+\.\d+)\s*out\s*of\s*10`. -/
def s1At (s : List Char) : Option (Nat × List Char) :=
  match
    (match eatLic "overall".toList s with
     | some r1 =>
       match eatLic "score".toList (spanCh isReSpace r1).2 with
       | some _ => some (7 + (spanCh isReSpace r1).1.length + 5)
       | none => none
     | none => none :
     Option Nat)
  with
  | some n =>
    match lazyScan outOf10At (s.drop n) with
    | some (m, g) => some (n + m, g)
    | none => none
  | none =>
    match eatLic "score".toList s with
    | some _ =>
      match lazyScan outOf10At (s.drop 5) with
      | some (m, g) => some (5 + m, g)
      | none => none
    | none => none

/-- Tail `(\d+\.\d+).*?(?:excellent|good|average)` of Sonic pattern 3. -/
def s3TailAt (s : List Char) : Option (Nat × List Char) :=
  match fltNumAt s with
  | some (n, g) =>
    match lazyScan
        (fun r => match eatAlts ["excellent".toList, "good".toList, "average".toList] r with
          | some (k, _) => some (k, ())
          | none => none) (s.drop n) with
    | some (m, _) => some (n + m, g)
    | none => none
  | none => none

/-- Sonic pattern 3 anchored at a position:
`score.*?(\d+\.\d+).*?(?:excellent|good|average)`. -/
def s3At (s : List Char) : Option (Nat × List Char) :=
  match eatLic "score".toList s with
  | some _ =>
    match lazyScan s3TailAt (s.drop 5) with
    | some (m, g) => some (5 + m, g)
    | none => none
  | none => none

/-- One Sonic sub-category pattern `kw:\s*(\d+)(?:/10)?` anchored at a
position. -/
def subCatAt (kw : List Char) (s : List Char) : Option (Nat × List Char) :=
  match eatLic kw s with
  | some r1 =>
    match r1 with
    | ':' :: r2 =>
      match (spanCh isDigitCh (spanCh isReSpace r2).2).1,
            (spanCh isDigitCh (spanCh isReSpace r2).2).2 with
      | [], _ => none
      | d :: ds, '/' :: '1' :: '0' :: _ =>
        some (kw.length + 1 + (spanCh isReSpace r2).1.length + (d :: ds).length + 3, d :: ds)
      | d :: ds, _ =>
        some (kw.length + 1 + (spanCh isReSpace r2).1.length + (d :: ds).length, d :: ds)
    | _ => none
  | none => none

/-- One round of `_parse_sonic_perspectives`' first loop: search a decimal
pattern, convert group 1 with `float`, keep it only if `0 <= score <= 10`
(otherwise the loop moves on to the next pattern). -/
def sonicTry (content : List Char) (pat : List Char → Option (Nat × List Char))
    (conf : ℚ) : Option ParsedScore :=
  match reSearch pat content with
  | some (st, n, g1) =>
    match parsePyFloat g1 with
    | some v =>
      if 0 ≤ v ∧ v ≤ 10 then some ⟨st.take n, v, conf, "decimal".toList, none⟩
      else none
    | none => none
  | none => none

/-- The sub-category scores found in the content, in pattern order
(`float(match.group(1))` cannot fail on a `\d+` group). -/
def sonicSubs (content : List Char) : List (List Char × ℚ) :=
  ["songwriting".toList, "musicianship".toList, "originality".toList,
   "production".toList].filterMap (fun kw =>
    match reSearch (subCatAt kw) content with
    | some (_, _, g1) =>
      match parsePyFloat g1 with
      | some v => some (kw, v)
      | none => none
    | none => none)

/-- Decimal digits of a natural number (for the f-string in the
sub-category `raw_score`). -/
def natDigitsAux : Nat → Nat → List Char
  | 0, _ => []
  | _ + 1, 0 => []
  | fuel + 1, n => natDigitsAux fuel (n / 10) ++ [Char.ofNat (48 + n % 10)]

/-- Decimal rendering of a natural number, `str(n)`. -/
def natDigits (n : Nat) : List Char :=
  if n = 0 then ['0'] else natDigitsAux (n + 1) n

/-- `ScoreParser._parse_sonic_perspectives`: the three range-checked
decimal patterns in order, then the averaged sub-categories when at least
two are present. -/
def parse_sonic (content : List Char) : Option ParsedScore :=
  match sonicTry content s1At (mkRat 95 100) with
  | some r => some r
  | none =>
    match sonicTry content outOf10At (mkRat 9 10) with
    | some r => some r
    | none =>
      match sonicTry content s3At (mkRat 85 100) with
      | some r => some r
      | none =>
        if !(sonicSubs content).isEmpty && decide (2 ≤ (sonicSubs content).length) then
          some ⟨"Average of ".toList ++ natDigits (sonicSubs content).length
              ++ " categories".toList,
            ((sonicSubs content).map Prod.snd).sum / ((sonicSubs content).length : ℚ),
            mkRat 8 10, "subcategory".toList, some (sonicSubs content)⟩
        else none

/-- One round of `_parse_prog_report`'s loop: search, normalize group 1,
return on a non-`None` score, else fall through to the next pattern. -/
def progTry (content : List Char) (pat : List Char → Option (Nat × List Char))
    (fmt : List Char) : Option ParsedScore :=
  match reSearch pat content with
  | some (st, n, g1) =>
    match normalize_score g1 fmt with
    | some v => some ⟨st.take n, v, mkRat 8 10, fmt, none⟩
    | none => none
  | none => none

/-- `ScoreParser._parse_prog_report`: the three Prog Report patterns in
order.  No range check is applied to the normalized score. -/
def parse_prog (content : List Char) : Option ParsedScore :=
  match progTry content p1At "fraction".toList with
  | some r => some r
  | none =>
    match progTry content p2At "fraction".toList with
    | some r => some r
    | none => progTry content p3At "decimal".toList

/-- One round of `_parse_universal`'s loop for a pattern with a capture
group. -/
def uniTry (content : List Char) (pat : List Char → Option (Nat × List Char))
    (fmt : List Char) : Option ParsedScore :=
  match reSearch pat content with
  | some (st, n, g1) =>
    match normalize_score g1 fmt with
    | some v => some ⟨st.take n, v, mkRat 6 10, fmt, none⟩
    | none => none
  | none => none

/-- `ScoreParser._parse_universal`: the five universal patterns in order.
A hit on the star-glyph pattern `★{1,5}` is an uncaught `IndexError`
(`Except.error ()`) because the pattern has no capture group and the code
immediately reads `match.group(1)`. -/
def parse_universal (content : List Char) : Except Unit (Option ParsedScore) :=
  match uniTry content u1At "fraction".toList with
  | some r => Except.ok (some r)
  | none =>
    match reSearch u2At content with
    | some _ => Except.error ()
    | none =>
      match uniTry content u3At "letter".toList with
      | some r => Except.ok (some r)
      | none =>
        match uniTry content u4At "text".toList with
        | some r => Except.ok (some r)
        | none =>
          match uniTry content u5At "percentage".toList with
          | some r => Except.ok (some r)
          | none => Except.ok none

/-- `ScoreParser.parse_score(content, source_name)`: empty-content guard,
lower-case the content, dispatch on the source name (substring tests on its
lower-casing), fall back to the universal patterns when the source-specific
parser returns `None`. -/
def parse_score (content source : List Char) : Except Unit (Option ParsedScore) :=
  if content = [] then Except.ok none
  else
    if strContains "sonic perspectives".toList (source.map pyLower) then
      match parse_sonic (content.map pyLower) with
      | some r => Except.ok (some r)
      | none => parse_universal (content.map pyLower)
    else if strContains "prog report".toList (source.map pyLower) then
      match parse_prog (content.map pyLower) with
      | some r => Except.ok (some r)
      | none => parse_universal (content.map pyLower)
    else parse_universal (content.map pyLower)

/-- Projection of a parse result onto (normalized score, format tag) —
what the score claims constrain. -/
def parsedView (r : Except Unit (Option ParsedScore)) :
    Except Unit (Option (ℚ × List Char)) :=
  r.map (Option.map (fun p => (p.normalized_score, p.format_type)))

/- ------------------------------------------------------------------ -/
/- Theorems and supporting lemmas.                                    -/
/- ------------------------------------------------------------------ -/

example : normalize_string "The Album Title".toList = "album title".toList := by decide
example : normalize_string "UPPERCASE".toList = "uppercase".toList := by decide
example : normalize_string "Fear, Inoculum".toList = "fear inoculum".toList := by decide
example : normalize_string "Album: The Story".toList = "album the story".toList := by decide
example : normalize_string "Album – Part 1".toList = "album - part 1".toList := by decide
example : normalize_string "The — Story".toList = "- story".toList := by decide
example : normalize_string "Album (Remastered)".toList = "album remastered".toList := by
  decide
example : normalize_string "Album [Deluxe Edition]".toList = "album deluxe edition".toList := by
  decide

/-! Basic character-level facts. -/

theorem pyLower_toNat_not_upper (c : Char) :
    ¬ (65 ≤ (pyLower c).toNat ∧ (pyLower c).toNat ≤ 90) := by
  unfold pyLower
  by_cases h : 65 ≤ c.toNat ∧ c.toNat ≤ 90
  · rw [if_pos h]
    obtain ⟨h1, h2⟩ := h
    interval_cases h3 : c.toNat <;> decide
  · rw [if_neg h]; exact h

theorem pyLower_idem (c : Char) : pyLower (pyLower c) = pyLower c := by
  have h := pyLower_toNat_not_upper c
  conv_lhs => rw [pyLower]
  rw [if_neg h]

theorem dashFix_not_specialDash (c : Char) : isSpecialDash (dashFix c) = false := by
  unfold dashFix
  by_cases h : isSpecialDash c = true
  · rw [if_pos h]; decide
  · rw [if_neg h]; simpa using h

/-! Equations and membership facts for `collapseWs` and friends. -/

theorem collapseWsAux_true (cs : List Char) :
    collapseWsAux true cs = collapseWsAux false (cs.dropWhile isPySpace) := by
  induction cs with
  | nil => rfl
  | cons d t ih =>
    by_cases h : isPySpace d = true
    · simp [collapseWsAux, h, ih, List.dropWhile_cons]
    · simp [collapseWsAux, h, List.dropWhile_cons]

theorem collapseWs_nil : collapseWs [] = [] := rfl

theorem collapseWs_cons_space {c : Char} (cs : List Char) (h : isPySpace c = true) :
    collapseWs (c :: cs) = ' ' :: collapseWs (cs.dropWhile isPySpace) := by
  simp [collapseWs, collapseWsAux, h, collapseWsAux_true]

theorem collapseWs_cons_nonspace {c : Char} (cs : List Char) (h : isPySpace c = false) :
    collapseWs (c :: cs) = c :: collapseWs cs := by
  simp [collapseWs, collapseWsAux, h]

theorem collapseWs_append_nonWs (w r : List Char) (hw : ∀ a ∈ w, isPySpace a = false) :
    collapseWs (w ++ r) = w ++ collapseWs r := by
  induction w with
  | nil => rfl
  | cons a t ih =>
    have ha : isPySpace a = false := hw a (by simp)
    rw [List.cons_append, collapseWs_cons_nonspace _ ha,
      ih (fun b hb => hw b (by simp [hb]))]
    simp

theorem dropWhile_eq_nil_of_all {p : Char → Bool} (l : List Char)
    (h : ∀ a ∈ l, p a = true) : l.dropWhile p = [] := by
  induction l with
  | nil => rfl
  | cons a t ih =>
    rw [List.dropWhile_cons_of_pos (h a (by simp))]
    exact ih (fun b hb => h b (by simp [hb]))

theorem collapseWs_allWs (sp : List Char) (h0 : sp ≠ [])
    (h : ∀ a ∈ sp, isPySpace a = true) : collapseWs sp = [' '] := by
  match sp with
  | [] => exact absurd rfl h0
  | s :: t =>
    rw [collapseWs_cons_space _ (h s (by simp)),
      dropWhile_eq_nil_of_all _ (fun b hb => h b (by simp [hb]))]
    rfl

theorem collapseWs_ws_append (sp X : List Char) (h0 : sp ≠ [])
    (h : ∀ a ∈ sp, isPySpace a = true) :
    collapseWs (sp ++ X) = ' ' :: collapseWs (X.dropWhile isPySpace) := by
  match sp with
  | [] => exact absurd rfl h0
  | s :: t =>
    rw [List.cons_append, collapseWs_cons_space _ (h s (by simp)),
      List.dropWhile_append, dropWhile_eq_nil_of_all t (fun b hb => h b (by simp [hb]))]
    simp

theorem dropTrailWs_append_nonWs (w r : List Char) (hw : ∀ a ∈ w, isPySpace a = false) :
    dropTrailWs (w ++ r) = w ++ dropTrailWs r := by
  induction w with
  | nil => rfl
  | cons a t ih =>
    have ha : isPySpace a = false := hw a (by simp)
    rw [List.cons_append]
    show (match dropTrailWs (t ++ r) with
      | [] => if isPySpace a then [] else [a]
      | s => a :: s) = (a :: t) ++ dropTrailWs r
    rw [ih (fun b hb => hw b (by simp [hb]))]
    match ht : t ++ dropTrailWs r with
    | [] =>
      rcases List.append_eq_nil.mp ht with ⟨ht1, ht2⟩
      simp [ha, ht1, ht2]
    | s :: ss => simp [ht.symm]

/-! Equations and facts for `blocks` and `joinW`. -/

theorem blocks_eq_nil {l : List Char} (h : l.dropWhile isPySpace = []) :
    blocks l = [] := by
  conv_lhs => rw [blocks.eq_def, h]

theorem blocks_eq_cons {l : List Char} {c : Char} {cs : List Char}
    (h : l.dropWhile isPySpace = c :: cs) :
    blocks l = (c :: cs.takeWhile (fun d => !(isPySpace d))) ::
      blocks (cs.dropWhile (fun d => !(isPySpace d))) := by
  conv_lhs => rw [blocks.eq_def, h]

theorem blocks_congr {l l2 : List Char}
    (h : l.dropWhile isPySpace = l2.dropWhile isPySpace) : blocks l = blocks l2 := by
  match h2 : l2.dropWhile isPySpace with
  | [] => rw [blocks_eq_nil (h.trans h2), blocks_eq_nil h2]
  | c :: cs => rw [blocks_eq_cons (h.trans h2), blocks_eq_cons h2]

theorem mem_takeWhile {p : Char → Bool} {l : List Char} {a : Char}
    (h : a ∈ l.takeWhile p) : p a = true := by
  induction l with
  | nil => simp [List.takeWhile] at h
  | cons b t ih =>
    rw [List.takeWhile_cons] at h
    by_cases hb : p b = true
    · rw [if_pos hb] at h
      rcases List.mem_cons.mp h with h1 | h1
      · exact h1 ▸ hb
      · exact ih h1
    · rw [if_neg hb] at h
      simp at h

theorem head_dropWhile_false {p : Char → Bool} {l : List Char} {c : Char}
    {cs : List Char} (h : l.dropWhile p = c :: cs) : p c = false := by
  induction l with
  | nil => simp [List.dropWhile] at h
  | cons b t ih =>
    rw [List.dropWhile_cons] at h
    by_cases hb : p b = true
    · rw [if_pos hb] at h; exact ih h
    · rw [if_neg hb] at h
      cases h
      simpa using hb

theorem blocks_good (l : List Char) :
    ∀ b ∈ blocks l, b ≠ [] ∧ ∀ a ∈ b, isPySpace a = false := by
  induction l using blocks.induct with
  | case1 l h => rw [blocks_eq_nil h]; simp
  | case2 l c cs h ih =>
    rw [blocks_eq_cons h]
    intro b hb
    rcases List.mem_cons.mp hb with h1 | h1
    · subst h1
      refine ⟨by simp, ?_⟩
      intro a ha
      rcases List.mem_cons.mp ha with h2 | h2
      · exact h2 ▸ head_dropWhile_false h
      · simpa using mem_takeWhile h2
    · exact ih b h1

theorem blocks_subset (l : List Char) : ∀ b ∈ blocks l, ∀ a ∈ b, a ∈ l := by
  induction l using blocks.induct with
  | case1 l h => rw [blocks_eq_nil h]; simp
  | case2 l c cs h ih =>
    rw [blocks_eq_cons h]
    intro b hb
    have hsub : c :: cs ⊆ l := by
      intro a ha
      exact (List.dropWhile_subset (p := isPySpace) (l := l)) (h ▸ ha)
    rcases List.mem_cons.mp hb with h1 | h1
    · subst h1
      intro a ha
      rcases List.mem_cons.mp ha with h2 | h2
      · exact hsub (h2 ▸ List.mem_cons_self c cs)
      · exact hsub (List.mem_cons_of_mem c (List.takeWhile_subset _ h2))
    · intro a ha
      have := ih b h1 a ha
      exact hsub (List.mem_cons_of_mem c (List.dropWhile_subset _ this))

theorem joinW_cons (b : List Char) {bs : List (List Char)} (h : bs ≠ []) :
    joinW (b :: bs) = b ++ ' ' :: joinW bs := by
  match bs with
  | [] => exact absurd rfl h
  | b2 :: bs2 => rfl

theorem joinW_eq_nil {bs : List (List Char)} (hg : ∀ b ∈ bs, b ≠ [])
    (h : joinW bs = []) : bs = [] := by
  match bs with
  | [] => rfl
  | [b] => exact absurd h (hg b (by simp))
  | b :: b2 :: bs2 =>
    rw [joinW_cons b (by simp)] at h
    rcases List.append_eq_nil.mp h with ⟨h1, h2⟩
    simp at h2

theorem mem_joinW {bs : List (List Char)} {a : Char} (h : a ∈ joinW bs) :
    a = ' ' ∨ ∃ b ∈ bs, a ∈ b := by
  induction bs with
  | nil => simp [joinW] at h
  | cons b bs2 ih =>
    match bs2 with
    | [] => exact Or.inr ⟨b, by simp, h⟩
    | b2 :: bs3 =>
      rw [joinW_cons b (by simp)] at h
      rcases List.mem_append.mp h with h1 | h1
      · exact Or.inr ⟨b, by simp, h1⟩
      · rcases List.mem_cons.mp h1 with h2 | h2
        · exact Or.inl h2
        · rcases ih h2 with h3 | ⟨b3, hb3, ha3⟩
          · exact Or.inl h3
          · exact Or.inr ⟨b3, by simp [hb3], ha3⟩

theorem all_of_dropWhile_eq_nil {p : Char → Bool} {l : List Char}
    (h : l.dropWhile p = []) : ∀ a ∈ l, p a = true := by
  induction l with
  | nil => simp
  | cons b t ih =>
    rw [List.dropWhile_cons] at h
    by_cases hb : p b = true
    · rw [if_pos hb] at h
      intro a ha
      rcases List.mem_cons.mp ha with h1 | h1
      · exact h1 ▸ hb
      · exact ih h a h1
    · rw [if_neg hb] at h
      simp at h

theorem collapseWs_dropWhile_fix (m : List Char) :
    (collapseWs (m.dropWhile isPySpace)).dropWhile isPySpace
      = collapseWs (m.dropWhile isPySpace) := by
  match h : m.dropWhile isPySpace with
  | [] => rfl
  | e :: es =>
    have he : isPySpace e = false := head_dropWhile_false h
    rw [collapseWs_cons_nonspace _ he, List.dropWhile_cons_of_neg (by simp [he])]

theorem pyStrip_head_nonspace {c : Char} (t : List Char) (hc : isPySpace c = false) :
    pyStrip (c :: t) = dropTrailWs (c :: t) := by
  unfold pyStrip
  rw [List.dropWhile_cons_of_neg (by simp [hc])]

theorem pyStrip_cons_space {c : Char} (t : List Char) (hc : isPySpace c = true) :
    pyStrip (c :: t) = pyStrip t := by
  unfold pyStrip
  rw [List.dropWhile_cons_of_pos (by simp [hc])]

theorem dropTrailWs_cons_space_of_nil {X : List Char} (h : dropTrailWs X = []) :
    dropTrailWs (' ' :: X) = [] := by
  show (match dropTrailWs X with
    | [] => if isPySpace ' ' then [] else [' ']
    | s => ' ' :: s) = []
  rw [h]
  rfl

theorem dropTrailWs_cons_space_of_ne {X : List Char} (h : dropTrailWs X ≠ []) :
    dropTrailWs (' ' :: X) = ' ' :: dropTrailWs X := by
  show (match dropTrailWs X with
    | [] => if isPySpace ' ' then [] else [' ']
    | s => ' ' :: s) = ' ' :: dropTrailWs X
  match h2 : dropTrailWs X with
  | [] => exact absurd h2 h
  | s :: ss => rfl

/-- The collapse-and-strip step computes exactly the whitespace-free chunks
joined by single spaces. -/
theorem pyStrip_collapseWs_eq (l : List Char) :
    pyStrip (collapseWs l) = joinW (blocks l) := by
  induction l using blocks.induct with
  | case1 l h =>
    rw [blocks_eq_nil h]
    have hall := all_of_dropWhile_eq_nil h
    match l with
    | [] => rfl
    | s :: t =>
      rw [collapseWs_allWs _ (by simp) hall]
      rfl
  | case2 l c cs h ih =>
    have hc : isPySpace c = false := head_dropWhile_false h
    have hw : ∀ a ∈ c :: cs.takeWhile (fun d => !(isPySpace d)), isPySpace a = false := by
      intro a ha
      rcases List.mem_cons.mp ha with h1 | h1
      · exact h1 ▸ hc
      · simpa using mem_takeWhile h1
    have hcs : c :: cs
        = (c :: cs.takeWhile (fun d => !(isPySpace d))) ++ cs.dropWhile (fun d => !(isPySpace d)) := by
      rw [List.cons_append, List.takeWhile_append_dropWhile]
    have hl : l = l.takeWhile isPySpace ++ (c :: cs) := by
      conv_lhs => rw [← List.takeWhile_append_dropWhile (p := isPySpace) (l := l)]
      rw [h]
    have hsp : ∀ a ∈ l.takeWhile isPySpace, isPySpace a = true := by
      intro a ha; exact mem_takeWhile ha
    -- collapsing the whole input, then stripping, leaves the head chunk intact
    have hB : pyStrip (collapseWs l)
        = (c :: cs.takeWhile (fun d => !(isPySpace d)))
            ++ dropTrailWs (collapseWs (cs.dropWhile (fun d => !(isPySpace d)))) := by
      have hmid : pyStrip ((c :: cs.takeWhile (fun d => !(isPySpace d)))
            ++ collapseWs (cs.dropWhile (fun d => !(isPySpace d))))
          = (c :: cs.takeWhile (fun d => !(isPySpace d)))
            ++ dropTrailWs (collapseWs (cs.dropWhile (fun d => !(isPySpace d)))) := by
        rw [List.cons_append, pyStrip_head_nonspace _ hc, ← List.cons_append,
          dropTrailWs_append_nonWs _ _ hw]
      by_cases hsp0 : l.takeWhile isPySpace = []
      · rw [hl, hsp0, List.nil_append, hcs, collapseWs_append_nonWs _ _ hw, hmid]
      · rw [hl, hcs, collapseWs_ws_append _ _ hsp0 hsp, pyStrip_cons_space _ (by decide),
          List.cons_append, List.dropWhile_cons_of_neg (by simp [hc]), ← List.cons_append,
          collapseWs_append_nonWs _ _ hw, hmid]
    rw [hB, blocks_eq_cons h]
    cases hrem : cs.dropWhile (fun d => !(isPySpace d)) with
    | nil =>
      rw [show blocks ([] : List Char) = [] from blocks_eq_nil (by simp)]
      simp [collapseWs_nil, dropTrailWs, joinW]
    | cons d ds =>
      have hd : isPySpace d = true := by
        have := head_dropWhile_false (p := fun d => !(isPySpace d)) hrem
        simpa using this
      have hps : pyStrip (collapseWs (d :: ds))
          = dropTrailWs (collapseWs (ds.dropWhile isPySpace)) := by
        rw [collapseWs_cons_space _ hd, pyStrip_cons_space _ (by decide)]
        unfold pyStrip
        rw [collapseWs_dropWhile_fix]
      rw [hrem] at ih
      rw [hps] at ih
      rw [collapseWs_cons_space _ hd]
      cases hYr : dropTrailWs (collapseWs (ds.dropWhile isPySpace)) with
      | nil =>
        have hjn : joinW (blocks (d :: ds)) = [] := by rw [← ih, hYr]
        have hbn : blocks (d :: ds) = [] :=
          joinW_eq_nil (fun b hb => (blocks_good _ b hb).1) hjn
        rw [hbn, dropTrailWs_cons_space_of_nil hYr]
        simp [joinW]
      | cons r rs =>
        have hne : dropTrailWs (collapseWs (ds.dropWhile isPySpace)) ≠ [] := by
          rw [hYr]; simp
        have hbne : blocks (d :: ds) ≠ [] := by
          intro h0
          rw [h0] at ih
          exact hne (ih.trans rfl)
        rw [dropTrailWs_cons_space_of_ne hne, ih, joinW_cons _ hbne]

theorem takeWhile_eq_self_of_all {p : Char → Bool} {l : List Char}
    (h : ∀ a ∈ l, p a = true) : l.takeWhile p = l := by
  induction l with
  | nil => rfl
  | cons a t ih =>
    rw [List.takeWhile_cons, if_pos (h a (by simp)), ih (fun b hb => h b (by simp [hb]))]

theorem takeWhile_append_sep {p : Char → Bool} {t : List Char} {x : Char}
    (r : List Char) (ht : ∀ a ∈ t, p a = true) (hx : p x = false) :
    (t ++ x :: r).takeWhile p = t := by
  induction t with
  | nil => simp [List.takeWhile_cons, hx]
  | cons a t2 ih =>
    rw [List.cons_append, List.takeWhile_cons, if_pos (ht a (by simp)),
      ih (fun b hb => ht b (by simp [hb]))]

theorem dropWhile_append_sep {p : Char → Bool} {t : List Char} {x : Char}
    (r : List Char) (ht : ∀ a ∈ t, p a = true) (hx : p x = false) :
    (t ++ x :: r).dropWhile p = x :: r := by
  induction t with
  | nil => simp [List.dropWhile_cons, hx]
  | cons a t2 ih =>
    rw [List.cons_append, List.dropWhile_cons_of_pos (ht a (by simp)),
      ih (fun b hb => ht b (by simp [hb]))]

/-- Splitting a join of good chunks recovers exactly the chunks. -/
theorem blocks_joinW (bs : List (List Char))
    (hg : ∀ b ∈ bs, b ≠ [] ∧ ∀ a ∈ b, isPySpace a = false) :
    blocks (joinW bs) = bs := by
  induction bs with
  | nil => exact blocks_eq_nil rfl
  | cons b bs2 ih =>
    match b, (hg b (by simp)).1 with
    | c :: t, _ =>
    have hc : isPySpace c = false :=
      (hg (c :: t) (List.mem_cons_self _ _)).2 c (by simp)
    have htall : ∀ a ∈ t, isPySpace a = false :=
      fun a ha => (hg (c :: t) (List.mem_cons_self _ _)).2 a (by simp [ha])
    match bs2 with
    | [] =>
      show blocks (c :: t) = [c :: t]
      rw [blocks_eq_cons (l := c :: t) (by rw [List.dropWhile_cons_of_neg (by simp [hc])]),
        takeWhile_eq_self_of_all (fun a ha => by simp [htall a ha]),
        dropWhile_eq_nil_of_all t (fun a ha => by simp [htall a ha]),
        blocks_eq_nil (by simp)]
    | b2 :: bs3 =>
      rw [joinW_cons _ (by simp)]
      rw [List.cons_append]
      rw [blocks_eq_cons (l := c :: (t ++ ' ' :: joinW (b2 :: bs3)))
        (by rw [List.dropWhile_cons_of_neg (by simp [hc])]),
        takeWhile_append_sep _ (fun a ha => by simp [htall a ha]) (by decide),
        dropWhile_append_sep _ (fun a ha => by simp [htall a ha]) (by decide)]
      rw [show blocks (' ' :: joinW (b2 :: bs3)) = blocks (joinW (b2 :: bs3)) from
          blocks_congr (by rw [List.dropWhile_cons_of_pos (by decide)]),
        ih (fun b hb => hg b (by simp [hb]))]

/-! Identity of each normalization step on an already-normalized string. -/

theorem map_id_of_mem {f : Char → Char} {l : List Char}
    (h : ∀ a ∈ l, f a = a) : l.map f = l := by
  induction l with
  | nil => rfl
  | cons a t ih => rw [List.map_cons, h a (by simp), ih (fun b hb => h b (by simp [hb]))]

theorem stripLeadingThe_eq_self {l : List Char}
    (hsp : ∀ a ∈ l, isPySpace a = true → a = ' ')
    (hpre : ¬ ("the ".toList <+: l)) : stripLeadingThe l = l := by
  match l with
  | [] => rfl
  | [c1] => rfl
  | [c1, c2] => rfl
  | [c1, c2, c3] => rfl
  | c1 :: c2 :: c3 :: c4 :: rest =>
    show (if c1 = 't' ∧ c2 = 'h' ∧ c3 = 'e' ∧ isPySpace c4 then rest.dropWhile isPySpace
      else c1 :: c2 :: c3 :: c4 :: rest) = c1 :: c2 :: c3 :: c4 :: rest
    rw [if_neg]
    rintro ⟨h1, h2, h3, h4⟩
    have hc4 : c4 = ' ' := hsp c4 (by simp) h4
    refine hpre ⟨rest, ?_⟩
    subst h1; subst h2; subst h3; subst hc4
    rfl

theorem matchSpanAt_none {op cl : Char} {l : List Char} (h : op ∉ l) :
    matchSpanAt op cl l = none := by
  unfold matchSpanAt
  match h2 : l.dropWhile isPySpace with
  | [] => rfl
  | c :: r2 =>
    have hc : c ∈ l := List.dropWhile_subset (p := isPySpace) (h2 ▸ List.mem_cons_self c r2)
    have hco : ¬ (c = op) := fun he => h (he ▸ hc)
    simp [hco]

theorem subSpansAux_id {op cl : Char} (f : Nat) (l : List Char) (h : op ∉ l) :
    subSpansAux op cl f l = l := by
  induction f generalizing l with
  | zero => rfl
  | succ f2 ih =>
    match l with
    | [] => rfl
    | c :: cs =>
      unfold subSpansAux
      rw [matchSpanAt_none h]
      rw [ih cs (fun hm => h (List.mem_cons_of_mem c hm))]

theorem subSpans_id {op cl : Char} (l : List Char) (h : op ∉ l) :
    subSpans op cl l = l := subSpansAux_id _ l h

theorem dashFix_eq_self {a : Char} (h : isSpecialDash a = false) : dashFix a = a := by
  unfold dashFix
  rw [if_neg (by simp [h])]

theorem stripLeadingThe_subset {l : List Char} {a : Char}
    (h : a ∈ stripLeadingThe l) : a ∈ l := by
  match l with
  | [] => exact h
  | [c1] => exact h
  | [c1, c2] => exact h
  | [c1, c2, c3] => exact h
  | c1 :: c2 :: c3 :: c4 :: rest =>
    revert h
    show a ∈ (if c1 = 't' ∧ c2 = 'h' ∧ c3 = 'e' ∧ isPySpace c4
        then rest.dropWhile isPySpace else c1 :: c2 :: c3 :: c4 :: rest) →
      a ∈ c1 :: c2 :: c3 :: c4 :: rest
    by_cases hc : c1 = 't' ∧ c2 = 'h' ∧ c3 = 'e' ∧ isPySpace c4
    · rw [if_pos hc]
      intro h
      have : a ∈ rest := List.dropWhile_subset _ h
      simp [this]
    · rw [if_neg hc]
      exact id

theorem normCore_members (x : List Char) :
    ∀ a ∈ normCore x, pyLower a = a ∧ isPunct a = false ∧ isSpecialDash a = false := by
  intro a ha
  have ha2 : a ∈ ((x.map pyLower).filter (fun c => !(isPunct c))).map dashFix :=
    stripLeadingThe_subset ha
  rcases List.mem_map.mp ha2 with ⟨b, hb, hab⟩
  have hbp : isPunct b = false := by
    have := List.of_mem_filter hb
    simpa using this
  rcases List.mem_map.mp (List.mem_of_mem_filter hb) with ⟨c0, _, hc0⟩
  subst hab
  by_cases hsd : isSpecialDash b = true
  · have hdb : dashFix b = '-' := by unfold dashFix; rw [if_pos (by simp [hsd])]
    rw [hdb]
    refine ⟨by decide, by decide, by decide⟩
  · have hsd2 : isSpecialDash b = false := by simpa using hsd
    rw [dashFix_eq_self hsd2]
    exact ⟨hc0 ▸ pyLower_idem c0, hbp, hsd2⟩

theorem normalize_eq_join (x : List Char) (hx : x ≠ []) :
    normalize_string x = joinW (blocks (normCore x)) := by
  have hparen : '(' ∉ normCore x := by
    intro hmem
    have := (normCore_members x '(' hmem).2.1
    simp [isPunct, punctChars] at this
  have hbrack : '[' ∉ normCore x := by
    intro hmem
    have := (normCore_members x '[' hmem).2.1
    simp [isPunct, punctChars] at this
  unfold normalize_string
  rw [if_neg hx]
  show pyStrip (collapseWs (subSpans '[' ']' (subSpans '(' ')' (normCore x))))
    = joinW (blocks (normCore x))
  rw [subSpans_id _ hparen, subSpans_id _ hbrack, pyStrip_collapseWs_eq]

theorem normalize_members (x : List Char) :
    ∀ a ∈ normalize_string x,
      pyLower a = a ∧ isPunct a = false ∧ isSpecialDash a = false ∧
        (isPySpace a = true → a = ' ') := by
  intro a ha
  by_cases hx : x = []
  · subst hx
    simp [normalize_string] at ha
  rw [normalize_eq_join x hx] at ha
  rcases mem_joinW ha with h1 | ⟨b, hb, hab⟩
  · subst h1
    refine ⟨by decide, by decide, by decide, fun _ => rfl⟩
  · have h3 := normCore_members x a (blocks_subset _ b hb a hab)
    have h4 : isPySpace a = false := (blocks_good _ b hb).2 a hab
    exact ⟨h3.1, h3.2.1, h3.2.2, fun hsp => absurd (h4 ▸ hsp) (by simp)⟩

/-- C4 (counterexample): `normalize` is not idempotent as claimed; on
"the the album" the first pass leaves "the album" and a second pass strips
the leading article again, yielding "album". -/
theorem claim_C4_counterexample :
    normalize_string "the the album".toList = "the album".toList ∧
      normalize_string (normalize_string "the the album".toList)
        ≠ normalize_string "the the album".toList := by
  decide

/-- C4 (amended): `normalize` is idempotent on every input whose normalized
form does not begin with "the " (on such outputs a second pass strips the
leading article again; on all others every normalization step is the
identity). -/
theorem claim_C4_theorem (x : List Char)
    (h : ¬ ("the ".toList <+: normalize_string x)) :
    normalize_string (normalize_string x) = normalize_string x := by
  by_cases hx : x = []
  · subst hx; rfl
  by_cases hout : normalize_string x = []
  · rw [hout]; rfl
  have hmem := normalize_members x
  conv_lhs => rw [normalize_string]
  rw [if_neg hout]
  rw [map_id_of_mem (fun a ha => (hmem a ha).1)]
  rw [List.filter_eq_self.mpr (fun a ha => by simp [(hmem a ha).2.1])]
  rw [map_id_of_mem (fun a ha => dashFix_eq_self (hmem a ha).2.2.1)]
  rw [stripLeadingThe_eq_self (fun a ha hsp => (hmem a ha).2.2.2 hsp) h]
  have hparen : '(' ∉ normalize_string x := by
    intro hmem2
    have := (hmem '(' hmem2).2.1
    simp [isPunct, punctChars] at this
  have hbrack : '[' ∉ normalize_string x := by
    intro hmem2
    have := (hmem '[' hmem2).2.1
    simp [isPunct, punctChars] at this
  rw [subSpans_id _ hparen, subSpans_id _ hbrack]
  rw [normalize_eq_join x hx, pyStrip_collapseWs_eq, blocks_joinW _ (blocks_good _)]

/-- C4 (witness): the amended idempotence instantiated on "Fear, Inoculum". -/
theorem claim_C4_witness :
    normalize_string (normalize_string "Fear, Inoculum".toList)
      = normalize_string "Fear, Inoculum".toList :=
  claim_C4_theorem "Fear, Inoculum".toList (by decide)

/-- C1 (counterexample): `normalize` does not delete the contents of
parenthesized spans; the parentheses are already stripped as punctuation, so
"Album (Remastered)" normalizes to "album remastered", not "album". -/
theorem claim_C1_counterexample :
    normalize_string "Album (Remastered)".toList ≠ "album".toList := by
  decide

/-- C1 (amended): `normalize` removes only the parenthesis/bracket characters
(they are stripped with the punctuation before the span-removal substitutions
run, so those substitutions never fire) and keeps the span contents:
normalize("Album (Remastered)") = "album remastered" and
normalize("Album [Deluxe Edition]") = "album deluxe edition". -/
theorem claim_C1_theorem :
    normalize_string "Album (Remastered)".toList = "album remastered".toList ∧
      normalize_string "Album [Deluxe Edition]".toList
        = "album deluxe edition".toList := by
  decide

/-! The create_if_missing=False call paths never mutate the store. -/

theorem match_artist_false (ratio : List Char → List Char → ℚ) (db : DB)
    (nm : List Char) :
    match_artist ratio db nm false = (match_artist_ro ratio db.artists nm, db) := by
  unfold match_artist match_artist_ro
  by_cases h : nm = []
  · rw [if_pos h, if_pos h]
  · rw [if_neg h, if_neg h]
    cases h2 : db.artists.find? (fun a => a.normalized_name = normalize_string nm) with
    | some a => rfl
    | none =>
      cases h3 : bestCandidate
          (fun a => similarity_score ratio (normalize_string nm) a.normalized_name)
          db.artists with
      | some a => rfl
      | none => rfl

theorem match_album_false (ratio : List Char → List Char → ℚ) (db : DB)
    (t nm : List Char) (ry : Option Int) :
    match_album ratio db t nm false ry
      = (match_album_ro ratio db.artists db.albums t nm ry, db) := by
  unfold match_album match_album_ro
  by_cases h : t = [] ∨ nm = []
  · rw [if_pos h, if_pos h]
  · rw [if_neg h, if_neg h, match_artist_false]
    cases h2 : match_artist_ro ratio db.artists nm with
    | none => simp only []
    | some artist =>
      simp only []
      cases h3 : db.albums.find?
          (fun al => al.artist_id = artist.id ∧ al.normalized_title = normalize_string t) with
      | some al => rfl
      | none =>
        cases h4 : bestCandidate (album_score ratio (normalize_string t) ry)
            (db.albums.filter (fun al => al.artist_id = artist.id)) with
        | some al => rfl
        | none => rfl

theorem match_item_false (ratio : List Char → List Char → ℚ) (db : DB)
    (item : ItemR) :
    match_music_item_to_album ratio db item false
      = (match_item_ro ratio db.artists db.albums item, db) := by
  unfold match_music_item_to_album match_item_ro
  by_cases h : item.album = [] ∨ item.artists = []
  · rw [if_pos h, if_pos h]
  · rw [if_neg h, if_neg h]
    cases item.artists with
    | nil => rfl
    | cons first rest =>
      simp only []
      by_cases h3 : first = []
      · rw [if_pos h3, if_pos h3]
      · rw [if_neg h3, if_neg h3, match_album_false]

theorem matchedReviews_eq (ratio : List Char → List Char → ℚ) (db : DB) (aid : Nat) :
    matchedReviews ratio db aid
      = (db.items.filter (fun it => it.content_type = CType.review)).filter
          (fun it =>
            match match_item_ro ratio db.artists db.albums it with
            | some al => al.id = aid
            | none => false) := by
  unfold matchedReviews
  simp only [match_item_false]

theorem matchedReviews_congr (ratio : List Char → List Char → ℚ) {db db2 : DB}
    (aid : Nat) (hi : db2.items = db.items) (har : db2.artists = db.artists)
    (hal : db2.albums = db.albums) :
    matchedReviews ratio db2 aid = matchedReviews ratio db aid := by
  rw [matchedReviews_eq, matchedReviews_eq, hi, har, hal]

/-- C5 (counterexample): the name "!!!" normalizes to the empty string, yet
match_artist (create_if_missing=True, empty store) does not return null — the
emptiness check is applied to the raw name, not the normalized one. -/
theorem claim_C5_counterexample :
    normalize_string "!!!".toList = [] ∧
      (match_artist zeroRatio emptyDB "!!!".toList true).1 ≠ none := by
  decide

/-- C5 (amended): match_artist returns null for the empty raw input name,
before normalization and for both values of create_if_missing, leaving the
store untouched; a nonempty name whose normalization is empty (such as "!!!")
is not rejected and can create an artist. -/
theorem claim_C5_theorem :
    (∀ (ratio : List Char → List Char → ℚ) (db : DB) (b : Bool),
        match_artist ratio db [] b = (none, db)) ∧
      (match_artist zeroRatio emptyDB "!!!".toList true).1.isSome = true := by
  constructor
  · intro ratio db b
    unfold match_artist
    rw [if_pos rfl]
  · decide

/-! The fuzzy-scan fold: characterization as "first maximum, accepted iff it
reaches the strong threshold". -/

theorem le_foldr_max (X : List ℚ) (b : ℚ) : b ≤ X.foldr max b := by
  induction X with
  | nil => exact le_refl b
  | cons x t ih => exact le_trans ih (le_max_right x (t.foldr max b))

theorem foldr_max_comm (X : List ℚ) (a b : ℚ) :
    max a (X.foldr max b) = X.foldr max (max a b) := by
  induction X with
  | nil => rfl
  | cons x t ih =>
    show max a (max x (t.foldr max b)) = max x (t.foldr max (max a b))
    rw [← ih, max_left_comm]

theorem bestCandidate_fold {α : Type} (sc : α → ℚ) (cands : List α) :
    ∀ (best : Option α) (bs : ℚ),
      (cands.foldl
        (fun st al => if sc al > st.2 ∧ sc al ≥ strong_match_threshold then (some al, sc al) else st)
        (best, bs)).1
      = if strong_match_threshold ≤ (cands.map sc).foldr max bs ∧ bs < (cands.map sc).foldr max bs
        then cands.find? (fun al => (cands.map sc).foldr max bs ≤ sc al)
        else best := by
  induction cands with
  | nil =>
    intro best bs
    simp [lt_irrefl]
  | cons c t ih =>
    intro best bs
    rw [List.foldl_cons]
    have hRc : ((c :: t).map sc).foldr max bs = max (sc c) ((t.map sc).foldr max bs) := rfl
    by_cases hup : sc c > bs ∧ sc c ≥ strong_match_threshold
    · rw [show (if sc c > (best, bs).2 ∧ sc c ≥ strong_match_threshold then (some c, sc c)
          else (best, bs)) = (some c, sc c) from if_pos hup]
      rw [ih (some c) (sc c)]
      have hR : ((c :: t).map sc).foldr max bs = (t.map sc).foldr max (sc c) := by
        rw [hRc, foldr_max_comm, max_eq_left (le_of_lt hup.1)]
      have hsle : sc c ≤ (t.map sc).foldr max (sc c) := le_foldr_max _ _
      have hcond : strong_match_threshold ≤ ((c :: t).map sc).foldr max bs ∧
          bs < ((c :: t).map sc).foldr max bs := by
        constructor
        · rw [hR]; exact le_trans hup.2 hsle
        · rw [hR]; exact lt_of_lt_of_le hup.1 hsle
      rw [if_pos hcond]
      by_cases hslt : sc c < (t.map sc).foldr max (sc c)
      · have hcondt : strong_match_threshold ≤ (t.map sc).foldr max (sc c) ∧
            sc c < (t.map sc).foldr max (sc c) :=
          ⟨le_trans hup.2 hsle, hslt⟩
        rw [if_pos hcondt]
        rw [List.find?_cons_of_neg _ (by
          show ¬ (decide (((c :: t).map sc).foldr max bs ≤ sc c) = true)
          rw [hR]
          exact fun hdec => (not_le.mpr hslt) (of_decide_eq_true hdec))]
        simp only [hR]
      · have heq : (t.map sc).foldr max (sc c) = sc c := le_antisymm (not_lt.mp hslt) hsle
        rw [if_neg (fun hand => hslt hand.2)]
        rw [List.find?_cons_of_pos _ (by
          show decide (((c :: t).map sc).foldr max bs ≤ sc c) = true
          rw [hR, heq]
          exact decide_eq_true (le_refl _))]
    · rw [show (if sc c > (best, bs).2 ∧ sc c ≥ strong_match_threshold then (some c, sc c)
          else (best, bs)) = (best, bs) from if_neg hup]
      rw [ih best bs]
      rcases not_and_or.mp hup with hsb | hss
      · have hsb2 : sc c ≤ bs := not_lt.mp hsb
        have hR : ((c :: t).map sc).foldr max bs = (t.map sc).foldr max bs := by
          rw [hRc, max_eq_right (le_trans hsb2 (le_foldr_max _ _))]
        rw [hR]
        by_cases hcond : strong_match_threshold ≤ (t.map sc).foldr max bs ∧
            bs < (t.map sc).foldr max bs
        · rw [if_pos hcond, if_pos hcond]
          rw [List.find?_cons_of_neg _ (by
            show ¬ (decide ((t.map sc).foldr max bs ≤ sc c) = true)
            exact fun hdec =>
              (not_le.mpr (lt_of_le_of_lt hsb2 hcond.2)) (of_decide_eq_true hdec))]
        · rw [if_neg hcond, if_neg hcond]
      · have hss2 : sc c < strong_match_threshold := not_le.mp hss
        by_cases hs2 : sc c ≤ (t.map sc).foldr max bs
        · have hR : ((c :: t).map sc).foldr max bs = (t.map sc).foldr max bs := by
            rw [hRc, max_eq_right hs2]
          rw [hR]
          by_cases hcond : strong_match_threshold ≤ (t.map sc).foldr max bs ∧
              bs < (t.map sc).foldr max bs
          · rw [if_pos hcond, if_pos hcond]
            rw [List.find?_cons_of_neg _ (by
              show ¬ (decide ((t.map sc).foldr max bs ≤ sc c) = true)
              exact fun hdec =>
                (not_le.mpr (lt_of_lt_of_le hss2 hcond.1)) (of_decide_eq_true hdec))]
          · rw [if_neg hcond, if_neg hcond]
        · have hs3 : (t.map sc).foldr max bs < sc c := not_le.mp hs2
          have hR : ((c :: t).map sc).foldr max bs = sc c := by
            rw [hRc, max_eq_left (le_of_lt hs3)]
          rw [hR]
          rw [if_neg (fun hand =>
            absurd (lt_of_le_of_lt hand.1 (lt_trans hs3 hss2)) (lt_irrefl _))]
          rw [if_neg (fun hand => absurd hand.1 (not_le.mpr hss2))]

theorem bestCandidate_spec {α : Type} (sc : α → ℚ) (cands : List α) :
    bestCandidate sc cands
      = if strong_match_threshold ≤ (cands.map sc).foldr max 0
        then cands.find? (fun al => (cands.map sc).foldr max 0 ≤ sc al)
        else none := by
  unfold bestCandidate
  rw [bestCandidate_fold]
  by_cases hc : strong_match_threshold ≤ (cands.map sc).foldr max 0
  · rw [if_pos ⟨hc, lt_of_lt_of_le (by norm_num [strong_match_threshold]) hc⟩, if_pos hc]
  · rw [if_neg (fun hand => hc hand.1), if_neg hc]

/-- C9: in match_album's fuzzy scan, a supplied (truthy) release year equal to
the candidate's adds a flat +0.10 to the similarity ratio — additively, with
no clamp to 1.0 (an exact title match plus the bonus scores 1.1) — and the
scan returns the first candidate attaining the maximum score if and only if
that maximum is at least the strong threshold 0.85 (ties go to the first
candidate; `List.find?` picks the first element attaining the fold maximum). -/
theorem claim_C9_theorem (ratio : List Char → List Char → ℚ) (nt : List Char)
    (ry : Option Int) (cands : List AlbumR) (y : Int) (al : AlbumR)
    (hy : y ≠ 0) (hal : al.release_year = some y) :
    album_score ratio nt (some y) al
        = similarity_score ratio nt al.normalized_title + 1/10 ∧
      (al.normalized_title = nt → nt ≠ [] →
        album_score ratio nt (some y) al = 1 + 1/10) ∧
      bestCandidate (album_score ratio nt ry) cands
        = if strong_match_threshold ≤ (cands.map (album_score ratio nt ry)).foldr max 0
          then cands.find?
            (fun b => (cands.map (album_score ratio nt ry)).foldr max 0
              ≤ album_score ratio nt ry b)
          else none := by
  have h1 : album_score ratio nt (some y) al
      = similarity_score ratio nt al.normalized_title + 1/10 := by
    unfold album_score
    rw [if_pos]
    exact ⟨by simp [pyTruthyInt, hy], by rw [hal]; simp [pyTruthyInt, hy], by rw [hal]⟩
  refine ⟨h1, ?_, bestCandidate_spec _ _⟩
  intro hnt hne
  rw [h1, hnt]
  unfold similarity_score
  rw [if_neg (by simp [hne]), if_pos rfl]

/-- C9 (witness): the bonus equation instantiated on a concrete candidate
with matching year 1999. -/
theorem claim_C9_witness :
    album_score zeroRatio "still life".toList (some 1999) sampleAlbum
      = similarity_score zeroRatio "still life".toList sampleAlbum.normalized_title
        + 1/10 :=
  (claim_C9_theorem zeroRatio "still life".toList (some 1999) [sampleAlbum] 1999
    sampleAlbum (by decide) (by decide)).1

/-- C6: the consensus-strength computation agrees with the specified rule on
every nonempty score list (single score or zero mean give 1.0, otherwise
round(max(0, 1 - stddev/mean), 3)), and a single score stores stddev 0.0. -/
theorem claim_C6_theorem (scores : List ℚ) (h : scores ≠ []) :
    calculate_consensus_strength scores = consensus_strength_spec scores ∧
      (scores.length = 1 → score_stddev_code scores = 0) := by
  constructor
  · unfold calculate_consensus_strength consensus_strength_spec
    have hlen : 1 ≤ scores.length := List.length_pos.mpr h
    by_cases h1 : scores.length = 1
    · rw [if_pos (by omega), if_pos h1]
    · rw [if_neg (by omega), if_neg h1]
  · intro h1
    unfold score_stddev_code
    rw [if_neg (by omega)]

/-- C6 (witness): a single score 7 gives consensus 1.0 and stddev 0.0. -/
theorem claim_C6_witness :
    calculate_consensus_strength [(7 : ℚ)] = consensus_strength_spec [(7 : ℚ)] ∧
      ((([(7 : ℚ)] : List ℚ).length = 1) → score_stddev_code [(7 : ℚ)] = 0) :=
  claim_C6_theorem [(7 : ℚ)] (by decide)

theorem distSum_bucketStep (d : ScoreDist) (s : ℚ) :
    distSum (bucketStep d s) = distSum d + 1 := by
  unfold bucketStep distSum
  split_ifs <;> simp <;> omega

theorem dist_foldl (scores : List ℚ) :
    ∀ d0 : ScoreDist, distSum (scores.foldl bucketStep d0) = distSum d0 + scores.length := by
  induction scores with
  | nil => intro d0; simp
  | cons s t ih =>
    intro d0
    rw [List.foldl_cons, ih (bucketStep d0 s), distSum_bucketStep]
    simp only [List.length_cons]
    omega

theorem bucketOf_eq0 {s : ℚ} (h1 : s < 3) : bucketOf s = 0 := by
  unfold bucketOf; rw [if_pos h1]

theorem bucketOf_eq1 {s : ℚ} (h1 : ¬ s < 3) (h2 : s < 5) : bucketOf s = 1 := by
  unfold bucketOf; rw [if_neg h1, if_pos h2]

theorem bucketOf_eq2 {s : ℚ} (h1 : ¬ s < 3) (h2 : ¬ s < 5) (h3 : s < 7) :
    bucketOf s = 2 := by
  unfold bucketOf; rw [if_neg h1, if_neg h2, if_pos h3]

theorem bucketOf_eq3 {s : ℚ} (h1 : ¬ s < 3) (h2 : ¬ s < 5) (h3 : ¬ s < 7)
    (h4 : s < 8) : bucketOf s = 3 := by
  unfold bucketOf; rw [if_neg h1, if_neg h2, if_neg h3, if_pos h4]

theorem bucketOf_eq4 {s : ℚ} (h1 : ¬ s < 3) (h2 : ¬ s < 5) (h3 : ¬ s < 7)
    (h4 : ¬ s < 8) (h5 : s < 9) : bucketOf s = 4 := by
  unfold bucketOf; rw [if_neg h1, if_neg h2, if_neg h3, if_neg h4, if_pos h5]

theorem bucketOf_eq5 {s : ℚ} (h1 : ¬ s < 3) (h2 : ¬ s < 5) (h3 : ¬ s < 7)
    (h4 : ¬ s < 8) (h5 : ¬ s < 9) : bucketOf s = 5 := by
  unfold bucketOf; rw [if_neg h1, if_neg h2, if_neg h3, if_neg h4, if_neg h5]

theorem dist_counts (scores : List ℚ) :
    ∀ d0 : ScoreDist,
      scores.foldl bucketStep d0 =
        ⟨d0.b03 + scores.countP (fun s => bucketOf s = 0),
         d0.b35 + scores.countP (fun s => bucketOf s = 1),
         d0.b57 + scores.countP (fun s => bucketOf s = 2),
         d0.b78 + scores.countP (fun s => bucketOf s = 3),
         d0.b89 + scores.countP (fun s => bucketOf s = 4),
         d0.b910 + scores.countP (fun s => bucketOf s = 5)⟩ := by
  induction scores with
  | nil => intro d0; simp
  | cons s t ih =>
    intro d0
    rw [List.foldl_cons, ih (bucketStep d0 s)]
    simp only [List.countP_cons]
    by_cases h1 : s < 3
    · rw [show bucketStep d0 s = { d0 with b03 := d0.b03 + 1 } from by
        unfold bucketStep; rw [if_pos h1]]
      simp [bucketOf_eq0 h1]
      omega
    · by_cases h2 : s < 5
      · rw [show bucketStep d0 s = { d0 with b35 := d0.b35 + 1 } from by
          unfold bucketStep; rw [if_neg h1, if_pos h2]]
        simp [bucketOf_eq1 h1 h2]
        omega
      · by_cases h3 : s < 7
        · rw [show bucketStep d0 s = { d0 with b57 := d0.b57 + 1 } from by
            unfold bucketStep; rw [if_neg h1, if_neg h2, if_pos h3]]
          simp [bucketOf_eq2 h1 h2 h3]
          omega
        · by_cases h4 : s < 8
          · rw [show bucketStep d0 s = { d0 with b78 := d0.b78 + 1 } from by
              unfold bucketStep; rw [if_neg h1, if_neg h2, if_neg h3, if_pos h4]]
            simp [bucketOf_eq3 h1 h2 h3 h4]
            omega
          · by_cases h5 : s < 9
            · rw [show bucketStep d0 s = { d0 with b89 := d0.b89 + 1 } from by
                unfold bucketStep; rw [if_neg h1, if_neg h2, if_neg h3, if_neg h4, if_pos h5]]
              simp [bucketOf_eq4 h1 h2 h3 h4 h5]
              omega
            · rw [show bucketStep d0 s = { d0 with b910 := d0.b910 + 1 } from by
                unfold bucketStep; rw [if_neg h1, if_neg h2, if_neg h3, if_neg h4, if_neg h5]]
              simp [bucketOf_eq5 h1 h2 h3 h4 h5]
              omega

/-- C7: each score is assigned to exactly one of the six specified buckets
([0,3), [3,5), [5,7), [7,8), [8,9), [9,10], scores of exactly 10 in the
last), the histogram counts one entry per score in the code's bucket, and
the bucket counts sum exactly to the number of scores. -/
theorem claim_C7_theorem (scores : List ℚ) :
    distSum (calculate_score_distribution scores) = scores.length ∧
      calculate_score_distribution scores =
        ⟨scores.countP (fun s => bucketOf s = 0),
         scores.countP (fun s => bucketOf s = 1),
         scores.countP (fun s => bucketOf s = 2),
         scores.countP (fun s => bucketOf s = 3),
         scores.countP (fun s => bucketOf s = 4),
         scores.countP (fun s => bucketOf s = 5)⟩ ∧
      ∀ s : ℚ, 0 ≤ s → s ≤ 10 →
        inBucket (bucketOf s) s ∧ ∀ j : Fin 6, inBucket j s → j = bucketOf s := by
  refine ⟨?_, ?_, ?_⟩
  · unfold calculate_score_distribution
    rw [dist_foldl]
    simp [distSum]
  · unfold calculate_score_distribution
    rw [dist_counts]
    simp
  · intro s h0 h10
    constructor
    · unfold bucketOf
      split_ifs with h1 h2 h3 h4 h5 <;> simp only [inBucket] <;> norm_num <;>
        constructor <;> linarith
    · intro j hj
      fin_cases j <;> simp only [inBucket] at hj <;> norm_num at hj <;>
        unfold bucketOf <;> split_ifs <;>
        first | rfl | (exfalso; rcases hj with ⟨hl, hr⟩; linarith)

/-- C7 (witness): the exactly-one-bucket property instantiated at 9.2 (which
lies in the last bucket), together with the repository's own five-score
distribution example. -/
theorem claim_C7_witness :
    (inBucket (bucketOf (mkRat 92 10)) (mkRat 92 10) ∧
      ∀ j : Fin 6, inBucket j (mkRat 92 10) → j = bucketOf (mkRat 92 10)) ∧
      calculate_score_distribution [5, mkRat 13 2, mkRat 15 2, mkRat 17 2, mkRat 92 10]
        = ⟨0, 0, 2, 1, 1, 1⟩ := by
  exact ⟨(claim_C7_theorem [mkRat 92 10]).2.2 (mkRat 92 10)
    (by rw [Rat.mkRat_eq_div]; norm_num) (by rw [Rat.mkRat_eq_div]; norm_num), by decide⟩

/-! Analysis of `aggregate_reviews_for_album` (shared by C8 and C10). -/

theorem replaceFirstAgg_find {p : AggregateR → Bool} {new : AggregateR}
    (hnew : p new = true) :
    ∀ {l : List AggregateR} {ag : AggregateR}, l.find? p = some ag →
      (replaceFirstAgg p new l).find? p = some new := by
  intro l
  induction l with
  | nil => intro ag h; simp at h
  | cons a t ih =>
    intro ag h
    unfold replaceFirstAgg
    by_cases ha : p a = true
    · rw [if_pos ha, List.find?_cons_of_pos _ hnew]
    · rw [if_neg ha, List.find?_cons_of_neg _ (by simp [ha])]
      rw [List.find?_cons_of_neg _ (by simp [ha])] at h
      exact ih h

theorem replaceFirstAgg_filter_length {p : AggregateR → Bool} {new : AggregateR}
    (hnew : p new = true) :
    ∀ l : List AggregateR,
      ((replaceFirstAgg p new l).filter p).length = (l.filter p).length := by
  intro l
  induction l with
  | nil => rfl
  | cons a t ih =>
    unfold replaceFirstAgg
    by_cases ha : p a = true
    · rw [if_pos ha]
      rw [List.filter_cons_of_pos hnew, List.filter_cons_of_pos ha]
      simp
    · rw [if_neg ha]
      rw [List.filter_cons_of_neg (by simp [ha]), List.filter_cons_of_neg (by simp [ha])]
      exact ih

/-- Unpacking a successful aggregation run: the looked-up album, the returned
aggregate, the derived fields as the pure computation, which store parts are
untouched, and the create/update shape of the aggregate table. -/
theorem run_succ (ratio : List Char → List Char → ℚ) (db : DB) (aid : Nat) (now : Int)
    (h : (aggregate_reviews_for_album ratio db aid now).1.isSome = true) :
    ∃ album a1 db1,
      db.albums.find? (fun al => al.id = aid) = some album ∧
      (db.artists.find? (fun ar => ar.id = album.artist_id)).isSome = true ∧
      matchedReviews ratio db aid ≠ [] ∧
      (matchedReviews ratio db aid).filter (fun r => r.review_score.isSome) ≠ [] ∧
      aggregate_reviews_for_album ratio db aid now = (some a1, db1) ∧
      a1.album_id = aid ∧
      a1.fields = computeAgg db.sources album (matchedReviews ratio db aid) ∧
      a1.updated_at = now ∧
      db1.artists = db.artists ∧ db1.albums = db.albums ∧
      db1.items = db.items ∧ db1.sources = db.sources ∧
      ((db.aggregates.find? (fun ag => ag.album_id = aid) = none ∧
          db1.aggregates = db.aggregates ++ [a1]) ∨
        (∃ ag, db.aggregates.find? (fun ag2 => ag2.album_id = aid) = some ag ∧
          a1.id = ag.id ∧
          db1.aggregates = replaceFirstAgg (fun a => a.album_id = aid) a1 db.aggregates)) := by
  unfold aggregate_reviews_for_album at h ⊢
  cases hfa : db.albums.find? (fun al => al.id = aid) with
  | none => rw [hfa] at h; simp at h
  | some album =>
    rw [hfa] at h
    simp only [] at h
    cases hfr : db.artists.find? (fun ar => ar.id = album.artist_id) with
    | none => rw [hfr] at h; simp at h
    | some artist =>
      rw [hfr] at h
      simp only [] at h
      by_cases hrev : matchedReviews ratio db aid = []
      · rw [if_pos hrev] at h; simp at h
      · rw [if_neg hrev] at h
        by_cases hsc : (matchedReviews ratio db aid).filter (fun r => r.review_score.isSome) = []
        · rw [if_pos hsc] at h; simp at h
        · rw [if_neg hsc] at h
          cases hagg : db.aggregates.find? (fun ag => ag.album_id = aid) with
          | some ag =>
            have hagid : ag.album_id = aid := by simpa using List.find?_some hagg
            refine ⟨album, ⟨ag.id, ag.album_id,
              computeAgg db.sources album (matchedReviews ratio db aid), now⟩,
              ⟨db.artists, db.albums, db.items, db.sources,
                replaceFirstAgg (fun a => a.album_id = aid)
                  ⟨ag.id, ag.album_id,
                    computeAgg db.sources album (matchedReviews ratio db aid), now⟩
                  db.aggregates,
                db.nextArtistId, db.nextAlbumId, db.nextAggId⟩,
              rfl, (by rw [hfr]; rfl), hrev, hsc, ?_, hagid, rfl, rfl, rfl, rfl, rfl, rfl,
              Or.inr ⟨ag, rfl, rfl, rfl⟩⟩
            simp only []
            rw [hfr]
            simp only []
            rw [if_neg hrev, if_neg hsc]
          | none =>
            refine ⟨album, ⟨db.nextAggId, aid,
              computeAgg db.sources album (matchedReviews ratio db aid), now⟩,
              ⟨db.artists, db.albums, db.items, db.sources,
                db.aggregates ++
                  [⟨db.nextAggId, aid,
                    computeAgg db.sources album (matchedReviews ratio db aid), now⟩],
                db.nextArtistId, db.nextAlbumId, db.nextAggId + 1⟩,
              rfl, (by rw [hfr]; rfl), hrev, hsc, ?_, rfl, rfl, rfl, rfl, rfl, rfl, rfl,
              Or.inl ⟨rfl, rfl⟩⟩
            simp only []
            rw [hfr]
            simp only []
            rw [if_neg hrev, if_neg hsc]

/-- A successful-run criterion expressed on the input store only. -/
theorem run_isSome (ratio : List Char → List Char → ℚ) (db : DB) (aid : Nat)
    (now : Int) (album : AlbumR)
    (hfa : db.albums.find? (fun al => al.id = aid) = some album)
    (hfr : (db.artists.find? (fun ar => ar.id = album.artist_id)).isSome = true)
    (hsc : (matchedReviews ratio db aid).filter (fun r => r.review_score.isSome) ≠ []) :
    (aggregate_reviews_for_album ratio db aid now).1.isSome = true := by
  have hrev : matchedReviews ratio db aid ≠ [] := by
    intro h0
    rw [h0] at hsc
    simp at hsc
  unfold aggregate_reviews_for_album
  rw [hfa]
  simp only []
  cases hfr2 : db.artists.find? (fun ar => ar.id = album.artist_id) with
  | none => rw [hfr2] at hfr; simp at hfr
  | some artist =>
    simp only []
    rw [if_neg hrev, if_neg hsc]
    cases hagg : db.aggregates.find? (fun ag => ag.album_id = aid) with
    | some ag => rfl
    | none => rfl

/-- C8: re-running aggregation with no intervening change to reviews,
entities or source weights reproduces identical derived fields, reuses the
same aggregate identifier, and leaves exactly one aggregate row for the
album. -/
theorem claim_C8_theorem (ratio : List Char → List Char → ℚ) (db : DB)
    (aid : Nat) (n1 n2 : Int)
    (hcount : (db.aggregates.filter (fun ag => ag.album_id = aid)).length ≤ 1)
    (hrun : (aggregate_reviews_for_album ratio db aid n1).1.isSome = true) :
    ∃ a1 db1 a2 db2,
      aggregate_reviews_for_album ratio db aid n1 = (some a1, db1) ∧
      aggregate_reviews_for_album ratio db1 aid n2 = (some a2, db2) ∧
      a2.fields = a1.fields ∧ a2.id = a1.id ∧
      (db2.aggregates.filter (fun ag => ag.album_id = aid)).length = 1 := by
  obtain ⟨album, a1, db1, hfa, hart, hrev, hsc, heq1, haid1, hfields1, hupd1,
    hart1, halb1, hitems1, hsrc1, hcase⟩ := run_succ ratio db aid n1 hrun
  have hmr : matchedReviews ratio db1 aid = matchedReviews ratio db aid :=
    matchedReviews_congr ratio aid hitems1 hart1 halb1
  have hfa1 : db1.albums.find? (fun al => al.id = aid) = some album := by
    rw [halb1]; exact hfa
  have hartb : (db1.artists.find? (fun ar => ar.id = album.artist_id)).isSome = true := by
    rw [hart1]; exact hart
  have hsc1 : (matchedReviews ratio db1 aid).filter (fun r => r.review_score.isSome) ≠ [] := by
    rw [hmr]; exact hsc
  have hrun2 := run_isSome ratio db1 aid n2 album hfa1 hartb hsc1
  obtain ⟨album2, a2, db2, hfa2, hart2b, hrev2, hsc2b, heq2, haid2, hfields2, hupd2,
    hart2c, halb2, hitems2, hsrc2, hcase2⟩ := run_succ ratio db1 aid n2 hrun2
  have halbum2 : album2 = album := by
    rw [hfa1] at hfa2
    exact (Option.some.inj hfa2).symm
  have hfind1 : db1.aggregates.find? (fun ag => ag.album_id = aid) = some a1 := by
    rcases hcase with ⟨hnone, hagg1⟩ | ⟨ag, hsome, hid, hagg1⟩
    · rw [hagg1, List.find?_append, hnone]
      simp [List.find?, haid1]
    · rw [hagg1]
      exact replaceFirstAgg_find (by simp [haid1]) hsome
  rcases hcase2 with ⟨hnone2, _⟩ | ⟨ag2, hsome2, hid2, hagg2⟩
  · rw [hfind1] at hnone2
    simp at hnone2
  · have hag2 : ag2 = a1 := Option.some.inj (hsome2.symm.trans hfind1)
    refine ⟨a1, db1, a2, db2, heq1, heq2, ?_, ?_, ?_⟩
    · rw [hfields2, hfields1, halbum2, hsrc1, hmr]
    · rw [hid2, hag2]
    · rw [hagg2, replaceFirstAgg_filter_length (by simp [haid2])]
      rcases hcase with ⟨hnone, hagg1⟩ | ⟨ag, hsome, hid, hagg1⟩
      · rw [hagg1, List.filter_append,
          List.filter_eq_nil_iff.mpr (fun x hx => (List.find?_eq_none.mp hnone) x hx)]
        simp [haid1]
      · rw [hagg1, replaceFirstAgg_filter_length (by simp [haid1])]
        have hpag := List.find?_some hsome
        have hmem : ag ∈ db.aggregates.filter (fun a => a.album_id = aid) :=
          List.mem_filter.mpr ⟨List.mem_of_find?_eq_some hsome, hpag⟩
        have hpos : 0 < (db.aggregates.filter (fun a => a.album_id = aid)).length :=
          List.length_pos.mpr (fun h0 => by rw [h0] at hmem; simp at hmem)
        omega

/-- C8 (witness): the idempotent upsert instantiated on a one-review store. -/
theorem claim_C8_witness :
    ∃ a1 db1 a2 db2,
      aggregate_reviews_for_album zeroRatio witnessDB 1 0 = (some a1, db1) ∧
      aggregate_reviews_for_album zeroRatio db1 1 5 = (some a2, db2) ∧
      a2.fields = a1.fields ∧ a2.id = a1.id ∧
      (db2.aggregates.filter (fun ag => ag.album_id = 1)).length = 1 :=
  claim_C8_theorem zeroRatio witnessDB 1 0 5 (by decide) (by decide)

/-- C10: in every aggregate the run produces, review_count, source_ids and
review_item_ids are computed over all reviews matched to the album (scored or
not), while every score statistic (average, weighted average, median, stddev,
consensus, controversy, distribution) is computed only over the scores of the
matched reviews that carry one. -/
theorem claim_C10_theorem (ratio : List Char → List Char → ℚ) (db : DB)
    (aid : Nat) (now : Int)
    (hrun : (aggregate_reviews_for_album ratio db aid now).1.isSome = true) :
    ∃ a1 db1,
      aggregate_reviews_for_album ratio db aid now = (some a1, db1) ∧
      a1.fields.review_count = (matchedReviews ratio db aid).length ∧
      a1.fields.source_ids
        = ((matchedReviews ratio db aid).map (fun r => r.source_id)).dedup ∧
      a1.fields.review_item_ids = (matchedReviews ratio db aid).map (fun r => r.id) ∧
      a1.fields.average_score = mean (scoresOf (matchedReviews ratio db aid)) ∧
      a1.fields.weighted_average
        = ((scoredSubset (matchedReviews ratio db aid)).map
              (fun r => (r.review_score.getD 0) * weightOf db.sources r.source_id)).sum
          / ((scoredSubset (matchedReviews ratio db aid)).map
              (fun r => weightOf db.sources r.source_id)).sum ∧
      a1.fields.median_score = pyMedian (scoresOf (matchedReviews ratio db aid)) ∧
      a1.fields.score_stddev = score_stddev_code (scoresOf (matchedReviews ratio db aid)) ∧
      a1.fields.consensus_strength
        = calculate_consensus_strength (scoresOf (matchedReviews ratio db aid)) ∧
      a1.fields.controversy_score
        = min (score_stddev_code (scoresOf (matchedReviews ratio db aid)) / 10) 1 ∧
      a1.fields.score_distribution
        = calculate_score_distribution (scoresOf (matchedReviews ratio db aid)) := by
  obtain ⟨album, a1, db1, hfa, hart, hrev, hsc, heq1, haid1, hfields1, hupd1,
    hart1, halb1, hitems1, hsrc1, hcase⟩ := run_succ ratio db aid now hrun
  exact ⟨a1, db1, heq1, by rw [hfields1]; rfl, by rw [hfields1]; rfl,
    by rw [hfields1]; rfl, by rw [hfields1]; rfl, by rw [hfields1]; rfl,
    by rw [hfields1]; rfl, by rw [hfields1]; rfl, by rw [hfields1]; rfl,
    by rw [hfields1]; rfl, by rw [hfields1]; rfl⟩

/-- C10 (witness): the all-matched versus scored-subset split instantiated on
the one-review store. -/
theorem claim_C10_witness :
    ∃ a1 db1,
      aggregate_reviews_for_album zeroRatio witnessDB 1 0 = (some a1, db1) ∧
      a1.fields.review_count = (matchedReviews zeroRatio witnessDB 1).length ∧
      a1.fields.source_ids
        = ((matchedReviews zeroRatio witnessDB 1).map (fun r => r.source_id)).dedup ∧
      a1.fields.review_item_ids
        = (matchedReviews zeroRatio witnessDB 1).map (fun r => r.id) ∧
      a1.fields.average_score = mean (scoresOf (matchedReviews zeroRatio witnessDB 1)) ∧
      a1.fields.weighted_average
        = ((scoredSubset (matchedReviews zeroRatio witnessDB 1)).map
              (fun r => (r.review_score.getD 0) * weightOf witnessDB.sources r.source_id)).sum
          / ((scoredSubset (matchedReviews zeroRatio witnessDB 1)).map
              (fun r => weightOf witnessDB.sources r.source_id)).sum ∧
      a1.fields.median_score = pyMedian (scoresOf (matchedReviews zeroRatio witnessDB 1)) ∧
      a1.fields.score_stddev
        = score_stddev_code (scoresOf (matchedReviews zeroRatio witnessDB 1)) ∧
      a1.fields.consensus_strength
        = calculate_consensus_strength (scoresOf (matchedReviews zeroRatio witnessDB 1)) ∧
      a1.fields.controversy_score
        = min (score_stddev_code (scoresOf (matchedReviews zeroRatio witnessDB 1)) / 10) 1 ∧
      a1.fields.score_distribution
        = calculate_score_distribution (scoresOf (matchedReviews zeroRatio witnessDB 1)) :=
  claim_C10_theorem zeroRatio witnessDB 1 0 (by decide)

/-- C2: the claim says a fraction match X/Y is normalized to (X/Y)·10
capped at 10, so "4/5 stars" should yield 8.0.  In the code only
`match.group(1)` — the bare numerator, the slash sits outside every capture
group — reaches `_normalize_score`, whose `'/' in raw_value` branch is
therefore dead: the numerator is passed through `float` unscaled and the
parse of "4/5 stars" yields 4.0, not 8.0. -/
theorem claim_C2_theorem :
    parsedView (parse_score ("4/5 stars".toList) ("Some Blog".toList))
      = Except.ok (some (4, "fraction".toList)) ∧
    parsedView (parse_score ("4/5 stars".toList) ("Some Blog".toList))
      ≠ Except.ok (some (8, "fraction".toList)) := by
  refine ⟨rfl, ?_⟩
  intro hc
  rw [show parsedView (parse_score ("4/5 stars".toList) ("Some Blog".toList))
      = Except.ok (some (4, "fraction".toList)) from rfl] at hc
  simp only [Except.ok.injEq, Option.some.injEq, Prod.mk.injEq] at hc
  exact absurd hc.1 (by norm_num)

/-- C3: the claim says every non-null ParsedScore has normalized_score in
[0, 10].  The Prog Report path applies no range check: on content "15/5"
the pattern `(\d+)/5` captures the bare numerator 15, `_normalize_score`
passes it through `float` unscaled, and parse_score returns a ParsedScore
with normalized_score 15 > 10. -/
theorem claim_C3_theorem :
    parsedView (parse_score ("15/5".toList) ("The Prog Report".toList))
      = Except.ok (some (15, "fraction".toList)) ∧
    ¬ ((15 : ℚ) ≤ 10) :=
  ⟨rfl, by norm_num⟩

end MusicScout
